import Mathlib

/-!
Verification of the voxsonus subtitle-synthesis pipeline
(`app/services/subtitle_processor.py`) against its specification.

The Python code is shallowly embedded: dictionaries holding subtitle events
become the `Event` structure, Python `int` becomes `Int`/`Nat`, Python's
stable `list.sort`/`sorted` becomes `List.insertionSort` (also a stable
sort, hence extensionally the same function for a total preorder), and
strings are handled either as `String` or as their underlying `List Char`
(Python's `str` methods `split`, `strip`, `lower`, `replace` are modelled
by executable char-list functions below).  The float `confidence` field is
modelled as `Int`: the code only ever compares confidences, never does
arithmetic on them, so any linearly ordered carrier is faithful.
-/

/-- Python `str.split()` / `str.strip()` whitespace handling, on char lists:
accumulate maximal runs of non-whitespace characters. -/
def wordsAux : List Char → List Char → List (List Char)
  | [], acc => if acc = [] then [] else [acc.reverse]
  | c :: cs, acc =>
    if c.isWhitespace then
      (if acc = [] then wordsAux cs [] else acc.reverse :: wordsAux cs [])
    else wordsAux cs (c :: acc)

/-- Python `text.split()` (split on whitespace runs, dropping empty pieces). -/
def pySplit (s : String) : List String :=
  (wordsAux s.data []).map (fun w => String.mk w)

/-- Python `str.strip()` on a char list. -/
def stripChars (cs : List Char) : List Char :=
  ((cs.dropWhile Char.isWhitespace).reverse.dropWhile Char.isWhitespace).reverse

/-- Python `str.strip()`. -/
def pyStrip (s : String) : String :=
  String.mk (stripChars s.data)

/-- Split a char list at every occurrence of `c` (Python `str.split(c)`:
adjacent separators produce empty pieces). -/
def splitOnChar (c : Char) : List Char → List (List Char)
  | [] => [[]]
  | x :: xs =>
    if x = c then [] :: splitOnChar c xs
    else
      match splitOnChar c xs with
      | [] => [[x]]
      | y :: ys => (x :: y) :: ys

/-- Break a char list at the first occurrence of `c`, dropping it. -/
def breakAt (c : Char) : List Char → Option (List Char × List Char)
  | [] => none
  | x :: xs =>
    if x = c then some ([], xs)
    else (breakAt c xs).map (fun p => (x :: p.1, p.2))

/-- `pat in hay` for Python strings: contiguous substring test. -/
def containsSub (hay pat : List Char) : Bool :=
  hay.tails.any (fun t => pat.isPrefixOf t)

/-- A subtitle event: the Python dicts flowing through the pipeline.
Keys absent from a given dict (`confidence`, `source` on speech events,
`priority` before `combine_sound_events`) are modelled by defaults; the
code never reads them where Python would raise `KeyError`. -/
structure Event where
  start : Int
  end_ : Int
  text : String
  type : String
  confidence : Int := 0
  source : String := ""
  priority : Option Int := none
deriving DecidableEq

/-- Sort key of Python `sorted(..., key=lambda x: x["start"])`. -/
def startLE (a b : Event) : Prop := a.start ≤ b.start

instance : DecidableRel startLE :=
  fun a b => inferInstanceAs (Decidable (a.start ≤ b.start))

instance : IsTotal Event startLE := ⟨fun a b => Int.le_total a.start b.start⟩

instance : IsTrans Event startLE := ⟨fun _ _ _ => Int.le_trans⟩

/-- `SOUND_LABEL_PATTERNS`, in Python dict insertion order (first matching
category wins in `extract_sound_key`). -/
def SOUND_LABEL_PATTERNS : List (String × List String) :=
  [("speech", ["speech", "speak", "talk", "voice", "conversation", "dialogue"]),
   ("music", ["music", "song", "melody", "musical", "instrument", "piano", "guitar", "drum"]),
   ("laughter", ["laugh", "laughter", "giggle", "chuckle"]),
   ("applause", ["applause", "clap", "clapping", "ovation"]),
   ("footsteps", ["footstep", "footsteps", "walk", "step", "running", "jogging"]),
   ("door", ["door", "slam", "opening", "closing", "knock", "knocking"]),
   ("car", ["car", "vehicle", "engine", "motor", "automobile", "truck"]),
   ("thunder", ["thunder", "storm", "lightning", "rumble"]),
   ("glass", ["glass", "break", "shatter", "crash", "smash"]),
   ("gunshot", ["gunshot", "gun", "shot", "fire", "shooting", "bullet"]),
   ("explosion", ["explosion", "blast", "boom", "explode", "detonate"]),
   ("scream", ["scream", "shout", "yell", "shriek", "cry"]),
   ("whisper", ["whisper", "murmur", "quiet", "soft"]),
   ("breathing", ["breath", "breathing", "inhale", "exhale", "gasp"]),
   ("heartbeat", ["heartbeat", "heart", "pulse", "beat"]),
   ("cheer", ["cheer", "cheering", "hooray", "celebration"]),
   ("water", ["water", "splash", "drop", "rain", "pour"]),
   ("wind", ["wind", "breeze", "gust", "blow"]),
   ("bell", ["bell", "ring", "chime", "ding"]),
   ("phone", ["phone", "telephone", "ring", "call"]),
   ("typing", ["typing", "keyboard", "type", "click"]),
   ("alarm", ["alarm", "alert", "siren", "warning"]),
   ("animal", ["dog", "cat", "bird", "bark", "meow", "chirp", "animal"]),
   ("crowd", ["crowd", "people", "audience", "group"]),
   ("impact", ["hit", "punch", "slap", "bang", "thud"]),
   ("mechanical", ["mechanical", "machine", "beep", "buzz", "whir"]),
   ("fire", ["fire", "crackle", "burn", "flame"]),
   ("electronic", ["electronic", "digital", "beep", "bleep", "signal"])]

/-- One value of the `GENRE_FILTERS` dict. -/
structure GenreFilter where
  priority : List String
  allowed : List String
  blocked : List String
deriving DecidableEq

/-- `GENRE_FILTERS` from the source. -/
def GENRE_FILTERS : List (String × GenreFilter) :=
  [("horror",
    ⟨["scream", "thunder", "footsteps", "door", "breathing", "heartbeat", "whisper", "glass", "impact"],
     ["scream", "thunder", "footsteps", "door", "breathing", "heartbeat", "whisper", "glass", "impact", "wind", "animal", "mechanical", "fire"],
     ["laughter", "applause", "cheer", "music"]⟩),
   ("comedy",
    ⟨["laughter", "applause", "cheer", "impact", "footsteps"],
     ["laughter", "applause", "cheer", "music", "footsteps", "door", "impact", "crowd", "animal"],
     ["scream", "gunshot", "explosion", "thunder", "breathing", "heartbeat"]⟩),
   ("romance",
    ⟨["music", "whisper", "breathing", "heartbeat", "footsteps"],
     ["music", "whisper", "breathing", "heartbeat", "footsteps", "door", "laughter", "water", "wind", "bell"],
     ["gunshot", "explosion", "scream", "thunder", "glass", "impact", "alarm"]⟩),
   ("action",
    ⟨["gunshot", "explosion", "car", "footsteps", "door", "glass", "impact"],
     ["gunshot", "explosion", "footsteps", "car", "door", "glass", "impact", "thunder", "mechanical", "crowd", "alarm"],
     ["whisper", "breathing", "heartbeat", "laughter", "music"]⟩),
   ("documentary",
    ⟨["footsteps", "door", "car", "music", "applause", "crowd"],
     ["footsteps", "door", "car", "music", "applause", "water", "wind", "animal", "crowd", "bell", "mechanical"],
     ["scream", "gunshot", "explosion", "thunder", "glass"]⟩),
   ("drama",
    ⟨["footsteps", "door", "breathing", "whisper", "music", "car"],
     ["footsteps", "door", "breathing", "whisper", "music", "car", "phone", "typing", "crowd", "water", "wind"],
     ["explosion", "gunshot", "scream", "thunder"]⟩),
   ("thriller",
    ⟨["footsteps", "door", "breathing", "heartbeat", "phone", "car"],
     ["footsteps", "door", "breathing", "heartbeat", "phone", "car", "whisper", "glass", "impact", "mechanical", "alarm"],
     ["laughter", "applause", "cheer", "music"]⟩),
   ("general",
    ⟨["footsteps", "door", "laughter", "applause", "music", "car"],
     ["footsteps", "door", "laughter", "applause", "music", "car", "phone", "bell", "crowd", "animal", "water", "wind"],
     []⟩)]

/-- `genre in GENRE_FILTERS` / `GENRE_FILTERS[genre]` dict lookup. -/
def lookupGenre (genre : String) : Option GenreFilter :=
  (GENRE_FILTERS.find? (fun p => p.1 == genre)).map Prod.snd

/-- `sound_label.lower().replace('[', '').replace(']', '').strip()`. -/
def cleanLabel (s : String) : List Char :=
  stripChars (((s.data.map Char.toLower).filter (fun c => c ≠ '[')).filter (fun c => c ≠ ']'))

/-- Inner double loop of `extract_sound_key`: first category with a
matching substring pattern wins. -/
def findPattern : List (String × List String) → List Char → Option String
  | [], _ => none
  | (sound_type, patterns) :: rest, clean =>
    if patterns.any (fun p => containsSub clean p.data) then some sound_type
    else findPattern rest clean

/-- `extract_sound_key` from the source. -/
def extract_sound_key (sound_label : String) : Option String :=
  findPattern SOUND_LABEL_PATTERNS (cleanLabel sound_label)

/-- `should_include_sound` from the source. -/
def should_include_sound (sound_label : String) (genre : String) : Bool :=
  match lookupGenre genre with
  | none => true
  | some filters =>
    match extract_sound_key sound_label with
    | none => false
    | some sound_key =>
      if filters.blocked.contains sound_key then false
      else if ¬ filters.allowed.isEmpty ∧ ¬ filters.allowed.contains sound_key then false
      else true

/-- `get_sound_priority` from the source. -/
def get_sound_priority (sound_label : String) (genre : String) : Int :=
  match extract_sound_key sound_label with
  | none => 0
  | some sound_key =>
    match lookupGenre genre with
    | none => 0
    | some filters =>
      if filters.priority.contains sound_key then
        ((filters.priority.indexOf sound_key : Nat) : Int) + 10
      else 1

/-- Every genre profile in `GENRE_FILTERS` has a non-empty `allowed` list. -/
theorem genre_allowed_ne_empty : ∀ p ∈ GENRE_FILTERS, p.2.allowed.isEmpty = false := by
  decide

theorem lookupGenre_allowed_ne_empty {genre : String} {f : GenreFilter}
    (h : lookupGenre genre = some f) : f.allowed.isEmpty = false := by
  unfold lookupGenre at h
  cases hf : GENRE_FILTERS.find? (fun p => p.1 == genre) with
  | none => rw [hf] at h; simp at h
  | some p =>
    rw [hf] at h
    simp only [Option.map_some', Option.some.injEq] at h
    subst h
    exact genre_allowed_ne_empty p (List.mem_of_find?_eq_some hf)

/-- The genre-filter decision procedure exactly as the specification words
it: unknown genre includes; a category in `blocked` excludes; a non-empty
`allowed` set excludes categories outside it; everything else is included
(a label with no canonical category belongs to no `blocked`/`allowed`
set). -/
def shouldIncludeClaim (label genre : String) : Bool :=
  match lookupGenre genre with
  | none => true
  | some f =>
    let inCat : List String → Bool := fun lst =>
      match extract_sound_key label with
      | some c => lst.contains c
      | none => false
    if inCat f.blocked then false
    else if ¬ f.allowed.isEmpty ∧ ¬ inCat f.allowed then false
    else true

/-- C4: for every sound label and genre, `should_include_sound` implements
exactly the spec's decision procedure (unknown genre → include; blocked
category → exclude; non-empty allowed set without the category → exclude;
otherwise include); in particular `"[Laughter]"` is excluded and
`"[Scream]"` included for genre `"horror"`.  A label with no canonical
category is excluded under every known genre, which agrees with the claim
because every genre profile has a non-empty `allowed` list. -/
theorem claim_C4 :
    (∀ label genre, should_include_sound label genre = shouldIncludeClaim label genre) ∧
    should_include_sound "[Laughter]" "horror" = false ∧
    should_include_sound "[Scream]" "horror" = true := by
  refine ⟨fun label genre => ?_, by decide, by decide⟩
  unfold should_include_sound shouldIncludeClaim
  cases hg : lookupGenre genre with
  | none => rfl
  | some f =>
    cases he : extract_sound_key label with
    | none => simp [lookupGenre_allowed_ne_empty hg]
    | some c => rfl

/-- C5 counterexample: the label `"zzz"` matches no taxonomy pattern, the
genre `"horror"` is a known genre key, and `get_sound_priority` returns 0
there — not 1 as the claim requires for a known genre whose priority list
does not contain the label's category. -/
theorem claim_C5_counterexample :
    (lookupGenre "horror").isSome = true ∧
    extract_sound_key "zzz" = none ∧
    get_sound_priority "zzz" "horror" = 0 ∧
    get_sound_priority "zzz" "horror" ≠ 1 := by
  refine ⟨by decide, by decide, by decide, by decide⟩

/-- C5 (amended): `get_sound_priority` returns the category's index in the
genre's priority list plus 10 when present; 1 when the genre is known and
the label has a canonical category not in that list; and 0 when the genre
is unknown or the label has no canonical category.  In particular
`"[Scream]"` under `"horror"` has priority 10. -/
theorem claim_C5_amended :
    (∀ label genre,
      (lookupGenre genre = none → get_sound_priority label genre = 0) ∧
      (extract_sound_key label = none → get_sound_priority label genre = 0) ∧
      (∀ k f, extract_sound_key label = some k → lookupGenre genre = some f →
        (k ∈ f.priority →
          get_sound_priority label genre = (f.priority.indexOf k : Int) + 10) ∧
        (k ∉ f.priority → get_sound_priority label genre = 1))) ∧
    get_sound_priority "[Scream]" "horror" = 10 := by
  refine ⟨fun label genre => ⟨?_, ?_, fun k f hk hf => ⟨?_, ?_⟩⟩, by decide⟩
  · intro h
    unfold get_sound_priority
    cases he : extract_sound_key label <;> simp [h]
  · intro h
    unfold get_sound_priority
    simp [h]
  · intro hmem
    unfold get_sound_priority
    rw [hk, hf]
    dsimp only
    rw [if_pos (List.elem_iff.mpr hmem)]
  · intro hmem
    unfold get_sound_priority
    rw [hk, hf]
    dsimp only
    rw [if_neg (fun hc => hmem (List.elem_iff.mp hc))]

theorem claim_C5_witness :
    extract_sound_key "[Scream]" = some "scream" ∧
    lookupGenre "horror" = some (GENRE_FILTERS.get ⟨0, by decide⟩).2 ∧
    get_sound_priority "[Scream]" "horror" =
      (((GENRE_FILTERS.get ⟨0, by decide⟩).2.priority.indexOf "scream" : Nat) : Int) + 10 := by
  refine ⟨by decide, by decide, ?_⟩
  exact (((claim_C5_amended.1 "[Scream]" "horror").2.2 "scream" _ (by decide) (by decide)).1
    (by decide))

/-- The speech-overlap test in `merge_subtitles`'s inner loop:
`sound_sub["start"] <= speech_sub["end"] and sound_sub["end"] >= speech_sub["start"]`
for some speech subtitle. -/
def overlapsB (speech_subtitles : List Event) (sound_sub : Event) : Bool :=
  speech_subtitles.any (fun speech_sub =>
    sound_sub.start ≤ speech_sub.end_ && sound_sub.end_ ≥ speech_sub.start)

/-- `merge_subtitles` from the source. -/
def merge_subtitles (speech_subtitles sound_subtitles : List Event)
    (accessibility_mode non_verbal_only_mode : Bool) : List Event :=
  if non_verbal_only_mode then List.insertionSort startLE sound_subtitles
  else
    let merged := sound_subtitles.foldl (fun acc sound_sub =>
      if accessibility_mode then acc ++ [sound_sub]
      else if overlapsB speech_subtitles sound_sub then acc
      else acc ++ [sound_sub]) speech_subtitles
    List.insertionSort startLE merged

theorem mergeFold_mem (speech : List Event) (am : Bool) (sounds : List Event) :
    ∀ (acc : List Event) (x : Event),
      (x ∈ sounds.foldl (fun acc sound_sub =>
          if am then acc ++ [sound_sub]
          else if overlapsB speech sound_sub then acc else acc ++ [sound_sub]) acc) ↔
        x ∈ acc ∨ (x ∈ sounds ∧ (am = true ∨ overlapsB speech x = false)) := by
  induction sounds with
  | nil => intro acc x; simp
  | cons s rest ih =>
    intro acc x
    rw [List.foldl_cons, ih]
    cases am with
    | true =>
      rw [if_pos rfl]
      simp only [List.mem_append, List.mem_singleton, List.mem_cons, eq_self_iff_true,
        true_or, and_true]
      tauto
    | false =>
      rw [if_neg (by simp)]
      simp only [Bool.false_eq_true, List.mem_cons, false_or]
      by_cases hov : overlapsB speech s = true
      · rw [if_pos hov]
        have hxs : x = s → overlapsB speech x = true := fun h => h ▸ hov
        constructor
        · rintro (h | ⟨hr, hx⟩)
          · exact Or.inl h
          · exact Or.inr ⟨Or.inr hr, hx⟩
        · rintro (h | ⟨rfl | hr, hx⟩)
          · exact Or.inl h
          · rw [hxs rfl] at hx; cases hx
          · exact Or.inr ⟨hr, hx⟩
      · rw [if_neg hov]
        simp only [List.mem_append, List.mem_singleton]
        constructor
        · rintro ((h | rfl) | ⟨hr, hx⟩)
          · exact Or.inl h
          · exact Or.inr ⟨Or.inl rfl, Bool.not_eq_true _ ▸ hov⟩
          · exact Or.inr ⟨Or.inr hr, hx⟩
        · rintro (h | ⟨rfl | hr, hx⟩)
          · exact Or.inl (Or.inl h)
          · exact Or.inl (Or.inr rfl)
          · exact Or.inr ⟨hr, hx⟩

/-- C3: with both modes off, every speech event is kept by
`merge_subtitles`, and a sound event (not itself occurring among the
speech events) is kept iff its closed interval intersects no speech
event's closed interval. -/
theorem claim_C3 : ∀ (speech sounds : List Event),
    (∀ e ∈ speech, e ∈ merge_subtitles speech sounds false false) ∧
    (∀ s ∈ sounds, s ∉ speech →
      (s ∈ merge_subtitles speech sounds false false ↔
        ¬ ∃ p ∈ speech, s.start ≤ p.end_ ∧ s.end_ ≥ p.start)) := by
  intro speech sounds
  have hm : ∀ x, x ∈ merge_subtitles speech sounds false false ↔
      x ∈ speech ∨ (x ∈ sounds ∧ overlapsB speech x = false) := by
    intro x
    unfold merge_subtitles
    rw [if_neg (by simp), List.mem_insertionSort, mergeFold_mem]
    simp
  have hov : ∀ x : Event, overlapsB speech x = false ↔
      ¬ ∃ p ∈ speech, x.start ≤ p.end_ ∧ x.end_ ≥ p.start := by
    intro x
    rw [← Bool.not_eq_true]
    simp [overlapsB, List.any_eq_true]
  refine ⟨fun e he => (hm e).mpr (Or.inl he), fun s hs hns => ?_⟩
  rw [hm s, ← hov s]
  constructor
  · rintro (h | ⟨_, h⟩)
    · exact absurd h hns
    · exact h
  · exact fun h => Or.inr ⟨hs, h⟩

/-- Speech event of the spec's TrackMerger example. -/
def spEx : Event := { start := 900, end_ := 1500, text := "hello", type := "speech" }

/-- Sound event strictly inside the speech interval (dropped). -/
def sdEx1 : Event :=
  { start := 1000, end_ := 1200, text := "[Door slam]", type := "sound",
    confidence := 1, source := "librosa" }

/-- Sound event overlapping no speech interval (kept). -/
def sdEx2 : Event :=
  { start := 2000, end_ := 2200, text := "[Door slam]", type := "sound",
    confidence := 1, source := "librosa" }

theorem claim_C3_witness :
    sdEx2 ∈ merge_subtitles [spEx] [sdEx1, sdEx2] false false ∧
    sdEx1 ∉ merge_subtitles [spEx] [sdEx1, sdEx2] false false := by
  constructor
  · exact ((claim_C3 [spEx] [sdEx1, sdEx2]).2 sdEx2 (by decide) (by decide)).mpr (by decide)
  · intro h
    exact ((claim_C3 [spEx] [sdEx1, sdEx2]).2 sdEx1 (by decide) (by decide)).mp h (by decide)

/-- `x.get("priority", 0)`. -/
def prio (e : Event) : Int := e.priority.getD 0

/-- The in-place sort key `(x["start"], -x.get("priority", 0),
-x["confidence"])` of `deduplicate_sound_events`, as the corresponding
lexicographic `≤` relation (Python compares key tuples lexicographically:
ascending start, then descending priority, then descending confidence). -/
def dedupLE (a b : Event) : Prop :=
  a.start < b.start ∨ (a.start = b.start ∧
    (prio b < prio a ∨ (prio a = prio b ∧ b.confidence ≤ a.confidence)))

instance : DecidableRel dedupLE := fun a b => by unfold dedupLE; infer_instance

instance : IsTotal Event dedupLE := ⟨by intro a b; unfold dedupLE; omega⟩

instance : IsTrans Event dedupLE := ⟨by intro a b c; unfold dedupLE; omega⟩

theorem dedupLE_start {a b : Event} (h : dedupLE a b) : startLE a b := by
  unfold dedupLE at h; unfold startLE; omega

/-- The duplicate test of the scan in `deduplicate_sound_events`: same
display text and starts within 1500 ms. -/
def conflictB (existing event : Event) : Bool :=
  existing.text == event.text && (existing.start - event.start).natAbs < 1500

/-- `conflictB` as a proposition. -/
def Conflict (a b : Event) : Prop :=
  a.text = b.text ∧ (a.start - b.start).natAbs < 1500

theorem conflictB_iff {a b : Event} : conflictB a b = true ↔ Conflict a b := by
  simp [conflictB, Conflict]

theorem conflict_symm : Symmetric (fun x y : Event => ¬ Conflict x y) := by
  intro a b h hc
  obtain ⟨h1, h2⟩ := hc
  exact h ⟨h1.symm, by omega⟩

theorem conflict_refl (a : Event) : Conflict a a := ⟨rfl, by simp⟩

/-- The replacement test of the scan: the candidate has strictly higher
priority, or equal priority and strictly higher confidence. -/
def replacesB (event existing : Event) : Bool :=
  prio existing < prio event ||
    (prio event == prio existing && existing.confidence < event.confidence)

theorem replacesB_irrefl (a : Event) : replacesB a a = false := by
  simp [replacesB]

/-- One iteration of the scan in `deduplicate_sound_events`: walk the
accepted list, `break` at the first conflicting entry; on a conflict,
either `list.remove` it (erase the first equal element) and append the
candidate, or discard the candidate; with no conflict, append. -/
def dedupStep (deduplicated : List Event) (event : Event) : List Event :=
  match deduplicated.find? (fun existing => conflictB existing event) with
  | none => deduplicated ++ [event]
  | some existing =>
    if replacesB event existing then deduplicated.erase existing ++ [event]
    else deduplicated

/-- The scan loop of `deduplicate_sound_events`. -/
def dedupScan (deduplicated : List Event) : List Event → List Event
  | [] => deduplicated
  | event :: rest => dedupScan (dedupStep deduplicated event) rest

/-- `deduplicate_sound_events` from the source: sort in place by
`(start, -priority, -confidence)`, scan, then return the scan result
sorted by start. -/
def deduplicate_sound_events (events : List Event) : List Event :=
  if events = [] then []
  else List.insertionSort startLE (dedupScan [] (List.insertionSort dedupLE events))

/-- Loop invariant of the dedup scan: the accepted list is duplicate-free,
sorted by the full key, pairwise conflict-free, key-below the unprocessed
events, and the unprocessed events are key-sorted. -/
structure ScanInv (acc rest : List Event) : Prop where
  nd : acc.Nodup
  pw_le : acc.Pairwise dedupLE
  pw_nc : acc.Pairwise (fun x y => ¬ Conflict x y)
  le_rest : ∀ x ∈ acc, ∀ y ∈ rest, dedupLE x y
  rest_sorted : rest.Pairwise dedupLE

theorem dedupStep_inv {acc : List Event} {e : Event} {rest : List Event}
    (inv : ScanInv acc (e :: rest)) : ScanInv (dedupStep acc e) rest := by
  obtain ⟨nd, pw_le, pw_nc, le_rest, rest_sorted⟩ := inv
  have le_e : ∀ x ∈ acc, dedupLE x e := fun x hx => le_rest x hx e (List.mem_cons_self e rest)
  have e_le_rest : ∀ y ∈ rest, dedupLE e y := (List.pairwise_cons.mp rest_sorted).1
  have rest_sorted' : rest.Pairwise dedupLE := (List.pairwise_cons.mp rest_sorted).2
  unfold dedupStep
  cases hfind : acc.find? (fun existing => conflictB existing e) with
  | none =>
    have hnc : ∀ x ∈ acc, ¬ Conflict x e := by
      intro x hx hc
      exact absurd (conflictB_iff.mpr hc) (by simpa using List.find?_eq_none.mp hfind x hx)
    have he_notmem : e ∉ acc := fun he => hnc e he (conflict_refl e)
    refine ⟨?_, ?_, ?_, ?_, rest_sorted'⟩
    · exact nd.append (List.nodup_singleton e)
        (fun a ha hb => absurd ((List.mem_singleton.mp hb) ▸ ha) he_notmem)
    · exact List.pairwise_append.mpr ⟨pw_le, List.pairwise_singleton _ _,
        fun x hx y hy => (List.mem_singleton.mp hy) ▸ le_e x hx⟩
    · exact List.pairwise_append.mpr ⟨pw_nc, List.pairwise_singleton _ _,
        fun x hx y hy => (List.mem_singleton.mp hy) ▸ hnc x hx⟩
    · intro x hx y hy
      rcases List.mem_append.mp hx with hxa | hxe
      · exact le_rest x hxa y (List.mem_cons_of_mem e hy)
      · exact (List.mem_singleton.mp hxe) ▸ e_le_rest y hy
  | some ex =>
    have hex_mem : ex ∈ acc := List.mem_of_find?_eq_some hfind
    have hex_conf : Conflict ex e := by
      have hpex := List.find?_some hfind
      exact conflictB_iff.mp hpex
    by_cases hrep : replacesB e ex = true
    · dsimp only
      rw [if_pos hrep]
      have he_notmem : e ∉ acc := by
        intro he
        by_cases hexe : ex = e
        · rw [hexe] at hrep
          rw [replacesB_irrefl] at hrep
          cases hrep
        · exact (pw_nc.forall conflict_symm hex_mem he hexe) hex_conf
      have hA : ∀ x ∈ acc.erase ex, ¬ Conflict x e := by
        intro x hx hcx
        obtain ⟨hxne, hxacc⟩ := (nd.mem_erase_iff).mp hx
        have hnxex : ¬ Conflict x ex := pw_nc.forall conflict_symm hxacc hex_mem hxne
        have h1 : x.start ≤ e.start := dedupLE_start (le_e x hxacc)
        have h2 : ex.start ≤ e.start := dedupLE_start (le_e ex hex_mem)
        have htext : x.text = ex.text := hcx.1.trans hex_conf.1.symm
        have habs : ¬ (x.start - ex.start).natAbs < 1500 := fun hlt => hnxex ⟨htext, hlt⟩
        have hx1 := hcx.2
        have hx2 := hex_conf.2
        omega
      have he_noterase : e ∉ acc.erase ex := fun he => he_notmem (List.erase_subset _ _ he)
      refine ⟨?_, ?_, ?_, ?_, rest_sorted'⟩
      · exact (nd.erase ex).append (List.nodup_singleton e)
          (fun a ha hb => absurd ((List.mem_singleton.mp hb) ▸ ha) he_noterase)
      · exact List.pairwise_append.mpr ⟨pw_le.sublist (List.erase_sublist ex acc),
          List.pairwise_singleton _ _,
          fun x hx y hy =>
            (List.mem_singleton.mp hy) ▸ le_e x (List.erase_subset _ _ hx)⟩
      · exact List.pairwise_append.mpr ⟨pw_nc.sublist (List.erase_sublist ex acc),
          List.pairwise_singleton _ _,
          fun x hx y hy => (List.mem_singleton.mp hy) ▸ hA x hx⟩
      · intro x hx y hy
        rcases List.mem_append.mp hx with hxa | hxe
        · exact le_rest x (List.erase_subset _ _ hxa) y (List.mem_cons_of_mem e hy)
        · exact (List.mem_singleton.mp hxe) ▸ e_le_rest y hy
    · dsimp only
      rw [if_neg hrep]
      exact ⟨nd, pw_le, pw_nc,
        fun x hx y hy => le_rest x hx y (List.mem_cons_of_mem e hy), rest_sorted'⟩

theorem dedupScan_inv : ∀ (rest acc : List Event), ScanInv acc rest →
    ScanInv (dedupScan acc rest) []
  | [], _, inv => inv
  | _ :: rest, _, inv => dedupScan_inv rest _ (dedupStep_inv inv)

/-- The dedup scan's output is key-sorted and pairwise conflict-free. -/
theorem dedup_pairwise (events : List Event) :
    (deduplicate_sound_events events).Pairwise dedupLE ∧
    (deduplicate_sound_events events).Pairwise (fun x y => ¬ Conflict x y) := by
  unfold deduplicate_sound_events
  by_cases h : events = []
  · rw [if_pos h]
    exact ⟨List.Pairwise.nil, List.Pairwise.nil⟩
  · rw [if_neg h]
    have inv0 : ScanInv [] (List.insertionSort dedupLE events) :=
      ⟨List.nodup_nil, List.Pairwise.nil, List.Pairwise.nil, by simp,
        List.sorted_insertionSort dedupLE events⟩
    have inv := dedupScan_inv _ [] inv0
    have hsorted : List.Sorted startLE (dedupScan [] (List.insertionSort dedupLE events)) :=
      inv.pw_le.imp (fun h => dedupLE_start h)
    rw [List.Sorted.insertionSort_eq hsorted]
    exact ⟨inv.pw_le, inv.pw_nc⟩

/-- On a pairwise conflict-free input, the scan accepts everything. -/
theorem dedupScan_no_conflict : ∀ (l acc : List Event),
    (∀ x ∈ acc, ∀ y ∈ l, ¬ Conflict x y) →
    l.Pairwise (fun x y => ¬ Conflict x y) →
    dedupScan acc l = acc ++ l
  | [], acc, _, _ => by simp [dedupScan]
  | e :: rest, acc, hcross, hpw => by
    have hfind : acc.find? (fun existing => conflictB existing e) = none := by
      rw [List.find?_eq_none]
      intro x hx hcb
      exact hcross x hx e (List.mem_cons_self e rest) (conflictB_iff.mp hcb)
    have hstep : dedupStep acc e = acc ++ [e] := by
      unfold dedupStep
      rw [hfind]
    rw [dedupScan, hstep]
    rw [dedupScan_no_conflict rest (acc ++ [e]) ?_ (List.pairwise_cons.mp hpw).2]
    · simp
    · intro x hx y hy
      rcases List.mem_append.mp hx with hxa | hxe
      · exact hcross x hxa y (List.mem_cons_of_mem e hy)
      · exact (List.mem_singleton.mp hxe) ▸ (List.pairwise_cons.mp hpw).1 y hy

/-- A key-sorted, conflict-free list is a fixed point of
`deduplicate_sound_events`. -/
theorem dedup_fixed {R : List Event} (hle : R.Pairwise dedupLE)
    (hnc : R.Pairwise (fun x y => ¬ Conflict x y)) :
    deduplicate_sound_events R = R := by
  unfold deduplicate_sound_events
  by_cases h : R = []
  · rw [if_pos h, h]
  · rw [if_neg h]
    rw [List.Sorted.insertionSort_eq (show List.Sorted dedupLE R from hle)]
    rw [dedupScan_no_conflict R [] (by simp) hnc, List.nil_append]
    exact List.Sorted.insertionSort_eq (hle.imp (fun h => dedupLE_start h))

/-- C2: the dedup step of the event reconciler is idempotent — applying
`deduplicate_sound_events` to its own output returns that output
unchanged, for every list of events.  The output is key-sorted and
pairwise conflict-free (`dedup_pairwise`), and any such list is a fixed
point (`dedup_fixed`): its opening sort is the identity, its scan finds
no conflict and accepts everything, and its final sort by start is again
the identity. -/
theorem claim_C2 (events : List Event) :
    deduplicate_sound_events (deduplicate_sound_events events) =
      deduplicate_sound_events events :=
  dedup_fixed (dedup_pairwise events).1 (dedup_pairwise events).2

/-- A sound event that gets replaced by the later, higher-priority
`evDedupB` 1000 ms away. -/
def evDedupA : Event :=
  { start := 0, end_ := 900, text := "[Music]", type := "sound",
    confidence := 5, source := "yamnet", priority := some 1 }

/-- The replacing event: same label, within 1500 ms of `evDedupA`,
higher priority. -/
def evDedupB : Event :=
  { start := 1000, end_ := 1900, text := "[Music]", type := "sound",
    confidence := 7, source := "librosa", priority := some 2 }

/-- A lower-priority duplicate within 1500 ms of `evDedupB`: discarded. -/
def evDedupD : Event :=
  { start := 1200, end_ := 2200, text := "[Music]", type := "sound",
    confidence := 3, source := "yamnet", priority := some 0 }

/-- A same-label event 2000 ms after `evDedupB`: outside the 1500 ms
window, kept. -/
def evDedupC : Event :=
  { start := 3000, end_ := 3900, text := "[Music]", type := "sound",
    confidence := 1, source := "librosa", priority := none }

/-- Concrete run of the dedup step exercising all three scan outcomes
(replace, discard, accept): the kernel evaluates
`deduplicate_sound_events` on the four events to `[evDedupB, evDedupC]`,
and applying the claim's theorem shows a second application returns that
output unchanged. -/
theorem claim_C2_witness :
    deduplicate_sound_events [evDedupA, evDedupB, evDedupD, evDedupC] =
      [evDedupB, evDedupC] ∧
    deduplicate_sound_events
        (deduplicate_sound_events [evDedupA, evDedupB, evDedupD, evDedupC]) =
      deduplicate_sound_events [evDedupA, evDedupB, evDedupD, evDedupC] :=
  ⟨by decide, claim_C2 [evDedupA, evDedupB, evDedupD, evDedupC]⟩

/-- The per-event assignment of `combine_sound_events`'s loop:
`event["priority"] = get_sound_priority(event["text"], genre)`. -/
def updatePriority (genre : String) (event : Event) : Event :=
  { event with priority := some (get_sound_priority event.text genre) }

/-- State of the input event records after `combine_sound_events` returns:
the loop `for event in all_events: event["priority"] = ...` assigns into
each dict of `yamnet_events + librosa_events` in place, so the caller's
records all carry the recomputed priority afterwards. -/
def combine_post_inputs (yamnet_events librosa_events : List Event) (genre : String) :
    List Event :=
  (yamnet_events ++ librosa_events).map (updatePriority genre)

/-- `combine_sound_events` from the source. -/
def combine_sound_events (yamnet_events librosa_events : List Event) (genre : String) :
    List Event :=
  deduplicate_sound_events (combine_post_inputs yamnet_events librosa_events genre)

/-- A sound event whose stored priority differs from the one
`combine_sound_events` recomputes. -/
def evMut : Event :=
  { start := 0, end_ := 500, text := "[Scream]", type := "sound",
    confidence := 9, source := "yamnet", priority := some 99 }

/-- C9 counterexample: `combine_sound_events` mutates its input event
records in place — after calling it on the single yamnet event `evMut`
(stored priority 99) under genre `"horror"`, the input record's
`priority` field has been overwritten with 10, so the input list is not
left unchanged as the claim requires. -/
theorem claim_C9_counterexample :
    combine_post_inputs [evMut] [] "horror" ≠ [evMut] ∧
    combine_post_inputs [evMut] [] "horror" =
      [{ evMut with priority := some (10 : Int) }] := by
  exact ⟨by decide, by decide⟩

theorem dedupStep_subset {acc : List Event} {e x : Event}
    (h : x ∈ dedupStep acc e) : x ∈ acc ∨ x = e := by
  unfold dedupStep at h
  cases hfind : acc.find? (fun existing => conflictB existing e) with
  | none =>
    rw [hfind] at h
    rcases List.mem_append.mp h with h1 | h1
    · exact Or.inl h1
    · exact Or.inr (List.mem_singleton.mp h1)
  | some ex =>
    rw [hfind] at h
    dsimp only at h
    by_cases hrep : replacesB e ex = true
    · rw [if_pos hrep] at h
      rcases List.mem_append.mp h with h1 | h1
      · exact Or.inl (List.erase_subset _ _ h1)
      · exact Or.inr (List.mem_singleton.mp h1)
    · rw [if_neg hrep] at h
      exact Or.inl h

theorem dedupScan_subset : ∀ (l acc : List Event) (x : Event),
    x ∈ dedupScan acc l → x ∈ acc ∨ x ∈ l
  | [], _, _, h => Or.inl h
  | e :: rest, acc, x, h => by
    rcases dedupScan_subset rest (dedupStep acc e) x h with h1 | h1
    · rcases dedupStep_subset h1 with h2 | h2
      · exact Or.inl h2
      · rw [h2]
        exact Or.inr (List.mem_cons_self e rest)
    · exact Or.inr (List.mem_cons_of_mem e h1)

/-- C9 (amended): deduplication and track merging build their outputs
from unaltered input records — every output event is a member of an input
list, all fields unchanged.  However, the claim's blanket "no event is
mutated in place" is false: `combine_sound_events` overwrites each input
record's `priority` field in place (see the counterexample), and
`format_subtitles` advances an over-long speech event's `start` field in
place while splitting it. -/
theorem claim_C9_amended :
    (∀ events : List Event, ∀ e ∈ deduplicate_sound_events events, e ∈ events) ∧
    (∀ (sp so : List Event) (am nv : Bool), ∀ e ∈ merge_subtitles sp so am nv,
      e ∈ sp ∨ e ∈ so) := by
  constructor
  · intro events e he
    unfold deduplicate_sound_events at he
    by_cases h : events = []
    · rw [if_pos h] at he
      cases he
    · rw [if_neg h, List.mem_insertionSort] at he
      rcases dedupScan_subset _ [] e he with h1 | h1
      · cases h1
      · exact (List.mem_insertionSort dedupLE).mp h1
  · intro sp so am nv e he
    unfold merge_subtitles at he
    by_cases hnv : nv = true
    · rw [if_pos hnv, List.mem_insertionSort] at he
      exact Or.inr he
    · rw [if_neg hnv, List.mem_insertionSort] at he
      rcases (mergeFold_mem sp am so sp e).mp he with h1 | ⟨h1, _⟩
      · exact Or.inl h1
      · exact Or.inr h1

theorem claim_C9_witness :
    (sdEx1 ∈ [sdEx1, sdEx2] ∨ sdEx1 ∈ [spEx]) ∧ sdEx1 ∈ [sdEx1, sdEx2] := by
  constructor
  · rcases claim_C9_amended.2 [sdEx1, sdEx2] [spEx] true false sdEx1 (by decide)
      with h | h
    · exact Or.inl h
    · exact Or.inr h
  · exact claim_C9_amended.1 [sdEx1, sdEx2] sdEx1 (by decide)

/-- Loop state of the word-splitting loop in `format_subtitles`:
`sub["start"]` (which the loop advances in place as chunks are emitted),
the running `current_text` / `current_chars`, and the chunks appended so
far for this subtitle. -/
structure FmtState where
  subStart : Int
  currentText : String
  currentChars : Nat
  out : List Event
deriving DecidableEq

/-- The `for word in words` loop of `format_subtitles`.  The float
expression `int(duration * (len(current_text) / len(text)))` is modelled
by integer division; the properties verified here concern only the chunk
texts, which do not depend on that rounding.  Note the faithful port of
the source's else-branch: when `current_text` is empty (only possible
before the first chunk), an oversized word is skipped entirely. -/
def splitLoop (subEnd : Int) (textLen : Nat) (maxChars : Nat) :
    List String → FmtState → FmtState
  | [], st => st
  | word :: words, st =>
    if st.currentChars + word.length + 1 ≤ maxChars then
      splitLoop subEnd textLen maxChars words
        (if st.currentText ≠ "" then
          { st with currentText := st.currentText ++ " " ++ word,
                    currentChars := st.currentChars + 1 + word.length }
        else
          { st with currentText := word,
                    currentChars := st.currentChars + word.length })
    else if st.currentText ≠ "" then
      let pdur : Int :=
        (subEnd - st.subStart) * (st.currentText.length : Int) / (textLen : Int)
      splitLoop subEnd textLen maxChars words
        { subStart := st.subStart + pdur,
          currentText := word,
          currentChars := word.length,
          out := st.out ++ [{ start := st.subStart, end_ := st.subStart + pdur,
                              text := st.currentText, type := "speech" }] }
    else
      splitLoop subEnd textLen maxChars words st

/-- Processing of a single subtitle by `format_subtitles`: sound events
and short speech events pass through; an over-long speech text is split
by the word loop, and a non-empty final chunk takes
`[sub["start"], sub["end"]]` with the mutated start. -/
def fmtOne (sub : Event) (maxChars : Nat) : List Event :=
  if sub.type = "sound" then [sub]
  else if sub.text.length ≤ maxChars then [sub]
  else
    let st := splitLoop sub.end_ sub.text.length maxChars (pySplit sub.text)
      { subStart := sub.start, currentText := "", currentChars := 0, out := [] }
    st.out ++
      (if st.currentText ≠ "" then
        [{ start := st.subStart, end_ := sub.end_, text := st.currentText,
           type := "speech" }]
      else [])

/-- The per-subtitle loop of `format_subtitles`. -/
def fmtAll : List Event → Nat → List Event
  | [], _ => []
  | sub :: rest, maxChars => fmtOne sub maxChars ++ fmtAll rest maxChars

/-- `format_subtitles` from the source. -/
def format_subtitles (subtitles : List Event)
    (max_chars_per_line lines_per_subtitle : Nat) : List Event :=
  List.insertionSort startLE (fmtAll subtitles (max_chars_per_line * lines_per_subtitle))

theorem splitLoop_inv (subEnd : Int) (textLen maxChars : Nat) (W : List String) :
    ∀ (ws : List String) (st : FmtState),
      (∀ w ∈ ws, w ∈ W) →
      st.currentChars = st.currentText.length →
      (st.currentText.length ≤ maxChars ∨ st.currentText ∈ W) →
      (∀ c ∈ st.out, c.text.length ≤ maxChars ∨ c.text ∈ W) →
      (splitLoop subEnd textLen maxChars ws st).currentChars =
          (splitLoop subEnd textLen maxChars ws st).currentText.length ∧
        ((splitLoop subEnd textLen maxChars ws st).currentText.length ≤ maxChars ∨
          (splitLoop subEnd textLen maxChars ws st).currentText ∈ W) ∧
        (∀ c ∈ (splitLoop subEnd textLen maxChars ws st).out,
          c.text.length ≤ maxChars ∨ c.text ∈ W)
  | [], st, _, hq, hcur, hout => ⟨hq, hcur, hout⟩
  | word :: words, st, hws, hq, hcur, hout => by
    have hwordW : word ∈ W := hws word (List.mem_cons_self _ _)
    have hwsW : ∀ w ∈ words, w ∈ W := fun w hw => hws w (List.mem_cons_of_mem _ hw)
    rw [splitLoop]
    by_cases hfit : st.currentChars + word.length + 1 ≤ maxChars
    · rw [if_pos hfit]
      by_cases hne : st.currentText ≠ ""
      · rw [if_pos hne]
        refine splitLoop_inv subEnd textLen maxChars W words _ hwsW ?_ ?_ hout
        · dsimp only
          have h1 : (" " : String).length = 1 := rfl
          simp only [String.length_append]
          omega
        · dsimp only
          have h1 : (" " : String).length = 1 := rfl
          simp only [String.length_append]
          left
          omega
      · rw [if_neg hne]
        have hempty : st.currentText = "" := not_ne_iff.mp hne
        have hlen0 : st.currentText.length = 0 := by rw [hempty]; rfl
        refine splitLoop_inv subEnd textLen maxChars W words _ hwsW ?_ ?_ hout
        · dsimp only
          omega
        · dsimp only
          left
          omega
    · rw [if_neg hfit]
      by_cases hne : st.currentText ≠ ""
      · rw [if_pos hne]
        refine splitLoop_inv subEnd textLen maxChars W words _ hwsW rfl (Or.inr hwordW) ?_
        intro c hc
        rcases List.mem_append.mp hc with h1 | h1
        · exact hout c h1
        · rw [List.mem_singleton.mp h1]
          exact hcur
      · rw [if_neg hne]
        exact splitLoop_inv subEnd textLen maxChars W words st hwsW hq hcur hout

theorem fmtOne_chars {sub : Event} {maxChars : Nat} :
    ∀ c ∈ fmtOne sub maxChars,
      c = sub ∨ c.text.length ≤ maxChars ∨ c.text ∈ pySplit sub.text := by
  intro c hc
  unfold fmtOne at hc
  by_cases hsound : sub.type = "sound"
  · rw [if_pos hsound] at hc
    exact Or.inl (List.mem_singleton.mp hc)
  · rw [if_neg hsound] at hc
    by_cases hshort : sub.text.length ≤ maxChars
    · rw [if_pos hshort] at hc
      exact Or.inl (List.mem_singleton.mp hc)
    · rw [if_neg hshort] at hc
      obtain ⟨_, hcur, hout⟩ := splitLoop_inv sub.end_ sub.text.length maxChars
        (pySplit sub.text) (pySplit sub.text)
        { subStart := sub.start, currentText := "", currentChars := 0, out := [] }
        (fun _ hw => hw) rfl (Or.inl (by simp)) (by simp)
      rcases List.mem_append.mp hc with h1 | h1
      · exact Or.inr (hout c h1)
      · by_cases hne : (splitLoop sub.end_ sub.text.length maxChars (pySplit sub.text)
            { subStart := sub.start, currentText := "", currentChars := 0,
              out := [] }).currentText ≠ ""
        · rw [if_pos hne, List.mem_singleton] at h1
          rw [h1]
          exact Or.inr hcur
        · rw [if_neg hne] at h1
          cases h1

theorem fmtAll_chars : ∀ (subs : List Event) (maxChars : Nat),
    ∀ c ∈ fmtAll subs maxChars,
      ∃ s ∈ subs, c = s ∨ c.text.length ≤ maxChars ∨ c.text ∈ pySplit s.text
  | [], _, c, hc => absurd hc (List.not_mem_nil c)
  | sub :: rest, maxChars, c, hc => by
    rcases List.mem_append.mp hc with h1 | h1
    · exact ⟨sub, List.mem_cons_self _ _, fmtOne_chars c h1⟩
    · obtain ⟨s, hs, hP⟩ := fmtAll_chars rest maxChars c h1
      exact ⟨s, List.mem_cons_of_mem _ hs, hP⟩

/-- C1 (amended): with positive line limits, every chunk emitted by
`format_subtitles` either respects the `max_chars_per_line ×
lines_per_subtitle` bound, or is an unchanged input event (sound or
already-short speech), or consists of a single word of some input's text
(the only way a chunk can exceed the bound).  The original claim's
further promise that an over-long word always *appears* in the output is
false — see the counterexample, where an over-long word at the start of
the text is dropped. -/
theorem claim_C1_amended :
    ∀ (subtitles : List Event) (max_chars_per_line lines_per_subtitle : Nat),
      0 < max_chars_per_line → 0 < lines_per_subtitle →
      ∀ c ∈ format_subtitles subtitles max_chars_per_line lines_per_subtitle,
        c.text.length ≤ max_chars_per_line * lines_per_subtitle ∨
          c ∈ subtitles ∨ ∃ s ∈ subtitles, c.text ∈ pySplit s.text := by
  intro subs mcpl lps _ _ c hc
  rw [format_subtitles, List.mem_insertionSort] at hc
  obtain ⟨s, hs, hP⟩ := fmtAll_chars subs (mcpl * lps) c hc
  rcases hP with rfl | h | h
  · exact Or.inr (Or.inl hs)
  · exact Or.inl h
  · exact Or.inr (Or.inr ⟨s, hs, h⟩)

/-- A speech event whose text is a single word longer than the limit. -/
def evLong : Event := { start := 0, end_ := 1000, text := "aaaa", type := "speech" }

/-- C1 counterexample: with `max_chars_per_line = 3`, `lines_per_subtitle
= 1`, the speech event with the single over-long word `"aaaa"` produces
an *empty* output — the over-long word is not passed through whole, it is
silently dropped (the source only re-seeds `current_text` inside
`if current_text:`). -/
theorem claim_C1_counterexample :
    format_subtitles [evLong] 3 1 = [] ∧
    3 * 1 < evLong.text.length ∧
    ¬ ∃ c ∈ format_subtitles [evLong] 3 1, c.text = evLong.text := by
  exact ⟨by decide, by decide, by decide⟩

/-- A speech event that splits into two bounded chunks. -/
def evSplit : Event := { start := 0, end_ := 1000, text := "ab cd", type := "speech" }

theorem claim_C1_witness :
    ({ start := 0, end_ := 400, text := "ab", type := "speech" } : Event).text.length ≤ 3 * 1 ∨
      ({ start := 0, end_ := 400, text := "ab", type := "speech" } : Event) ∈ [evSplit] ∨
      ∃ s ∈ [evSplit],
        ({ start := 0, end_ := 400, text := "ab", type := "speech" } : Event).text ∈
          pySplit s.text :=
  claim_C1_amended [evSplit] 3 1 (by decide) (by decide) _ (by decide)

/-- `TRANSLATION_CONFIG` from the source. -/
structure TranslationConfig where
  max_words_per_batch : Nat
  max_subtitles_per_batch : Nat
  max_tokens : Nat

/-- `TRANSLATION_CONFIG` values. -/
def TRANSLATION_CONFIG : TranslationConfig :=
  { max_words_per_batch := 500, max_subtitles_per_batch := 50, max_tokens := 2000 }

/-- `len(subtitle["text"].split())`. -/
def wordCount (subtitle : Event) : Nat := (pySplit subtitle.text).length

/-- Total word count of one batch. -/
def batchWords (batch : List Event) : Nat := (batch.map wordCount).sum

/-- Total word count of a subtitle list. -/
def totalWords (subtitles : List Event) : Nat := (subtitles.map wordCount).sum

/-- The accumulation loop of `create_smart_batches`: flush the current
batch when adding the next subtitle would exceed the word budget or the
batch already holds the maximum number of subtitles — but only when the
current batch is non-empty. -/
def csbAux (max_words max_subtitles : Nat) :
    List Event → List (List Event) → List Event → Nat → List (List Event)
  | [], batches, current_batch, _ =>
    if current_batch ≠ [] then batches ++ [current_batch] else batches
  | subtitle :: rest, batches, current_batch, current_word_count =>
    if (max_words < current_word_count + wordCount subtitle ∨
        max_subtitles ≤ current_batch.length) ∧ current_batch ≠ [] then
      csbAux max_words max_subtitles rest (batches ++ [current_batch])
        [subtitle] (wordCount subtitle)
    else
      csbAux max_words max_subtitles rest batches (current_batch ++ [subtitle])
        (current_word_count + wordCount subtitle)

/-- `create_smart_batches` from the source. -/
def create_smart_batches (subtitles : List Event) : List (List Event) :=
  csbAux TRANSLATION_CONFIG.max_words_per_batch TRANSLATION_CONFIG.max_subtitles_per_batch
    subtitles [] [] 0

theorem csbAux_flatten (mw ms : Nat) : ∀ (rest : List Event) (batches : List (List Event))
    (current : List Event) (cwc : Nat),
    (csbAux mw ms rest batches current cwc).flatten = batches.flatten ++ current ++ rest
  | [], batches, current, cwc => by
    rw [csbAux]
    by_cases h : current ≠ []
    · rw [if_pos h]
      simp
    · rw [if_neg h]
      rw [not_ne_iff.mp h]
      simp
  | s :: rest, batches, current, cwc => by
    rw [csbAux]
    by_cases h : (mw < cwc + wordCount s ∨ ms ≤ current.length) ∧ current ≠ []
    · rw [if_pos h, csbAux_flatten mw ms rest]
      simp
    · rw [if_neg h, csbAux_flatten mw ms rest]
      simp

theorem csbAux_bounds (mw ms : Nat) (hms : 1 ≤ ms) :
    ∀ (rest : List Event) (batches : List (List Event)) (current : List Event) (cwc : Nat),
    (∀ b ∈ batches, b ≠ [] ∧ b.length ≤ ms ∧ batchWords b ≤ mw) →
    current.length ≤ ms →
    batchWords current = cwc →
    cwc ≤ mw →
    (∀ s ∈ rest, wordCount s ≤ mw) →
    ∀ b ∈ csbAux mw ms rest batches current cwc,
      b ≠ [] ∧ b.length ≤ ms ∧ batchWords b ≤ mw
  | [], batches, current, cwc, hb, hlen, hwords, hcwc, _, b, hmem => by
    rw [csbAux] at hmem
    by_cases h : current ≠ []
    · rw [if_pos h] at hmem
      rcases List.mem_append.mp hmem with h1 | h1
      · exact hb b h1
      · rw [List.mem_singleton.mp h1]
        exact ⟨h, hlen, hwords ▸ hcwc⟩
    · rw [if_neg h] at hmem
      exact hb b hmem
  | s :: rest, batches, current, cwc, hb, hlen, hwords, hcwc, hrest, b, hmem => by
    have hws : wordCount s ≤ mw := hrest s (List.mem_cons_self _ _)
    have hrest' : ∀ x ∈ rest, wordCount x ≤ mw :=
      fun x hx => hrest x (List.mem_cons_of_mem _ hx)
    rw [csbAux] at hmem
    by_cases h : (mw < cwc + wordCount s ∨ ms ≤ current.length) ∧ current ≠ []
    · rw [if_pos h] at hmem
      refine csbAux_bounds mw ms hms rest _ _ _ ?_ ?_ ?_ hws hrest' b hmem
      · intro x hx
        rcases List.mem_append.mp hx with h1 | h1
        · exact hb x h1
        · rw [List.mem_singleton.mp h1]
          exact ⟨h.2, hlen, hwords ▸ hcwc⟩
      · simpa using hms
      · simp [batchWords]
    · rw [if_neg h] at hmem
      have hw' : batchWords (current ++ [s]) = cwc + wordCount s := by
        rw [← hwords]
        simp [batchWords]
      by_cases hc : current = []
      · have hcwc0 : cwc = 0 := by
          rw [← hwords, hc]
          rfl
        refine csbAux_bounds mw ms hms rest _ _ _ hb ?_ hw' ?_ hrest' b hmem
        · rw [hc]
          simpa using hms
        · omega
      · have hP : ¬(mw < cwc + wordCount s ∨ ms ≤ current.length) :=
          fun hpq => h ⟨hpq, hc⟩
        refine csbAux_bounds mw ms hms rest _ _ _ hb ?_ hw' ?_ hrest' b hmem
        · simp only [List.length_append]
          simp
          omega
        · omega

/-- C6 (amended): the batches of `create_smart_batches` concatenate back
to the input in order and never hold more than 50 events; when every
event has at most 500 words, every batch also has at most 500 words, and
an input totalling 501 words therefore needs at least 2 batches.  The
original claim's unconditional consequent fails for a single event with
more than 500 words, which is placed alone in one over-budget batch (see
the counterexample). -/
theorem claim_C6_amended :
    (∀ subtitles : List Event, (create_smart_batches subtitles).flatten = subtitles) ∧
    (∀ subtitles : List Event, (∀ s ∈ subtitles, wordCount s ≤ 500) →
      ∀ b ∈ create_smart_batches subtitles, b ≠ [] ∧ b.length ≤ 50 ∧ batchWords b ≤ 500) ∧
    (∀ subtitles : List Event, (∀ s ∈ subtitles, wordCount s ≤ 500) →
      totalWords subtitles = 501 → 2 ≤ (create_smart_batches subtitles).length) := by
  have hflat : ∀ subtitles : List Event,
      (create_smart_batches subtitles).flatten = subtitles := by
    intro subs
    rw [create_smart_batches, csbAux_flatten]
    simp
  have hbound : ∀ subtitles : List Event, (∀ s ∈ subtitles, wordCount s ≤ 500) →
      ∀ b ∈ create_smart_batches subtitles, b ≠ [] ∧ b.length ≤ 50 ∧ batchWords b ≤ 500 := by
    intro subs hsub b hmem
    exact csbAux_bounds 500 50 (by omega) subs [] [] 0 (by simp) (by simp)
      (by simp [batchWords]) (by omega) hsub b hmem
  refine ⟨hflat, hbound, ?_⟩
  intro subs hsub htot
  by_contra hlt
  have hlen : (create_smart_batches subs).length ≤ 1 := by omega
  have htot' : totalWords ((create_smart_batches subs).flatten) = 501 := by
    rw [hflat subs]
    exact htot
  cases hcs : create_smart_batches subs with
  | nil =>
    rw [hcs] at htot'
    simp [totalWords] at htot'
  | cons b bs =>
    cases bs with
    | nil =>
      rw [hcs] at htot'
      simp only [List.flatten_cons, List.flatten_nil, List.append_nil] at htot'
      have hb := hbound subs hsub b (by rw [hcs]; exact List.mem_cons_self _ _)
      have : totalWords b = batchWords b := rfl
      omega
    | cons b2 bs2 =>
      rw [hcs] at hlen
      simp at hlen

/-- Characters of the text `"w w ... w"` with `n` single-letter words. -/
def wRep : Nat → List Char
  | 0 => []
  | 1 => ['w']
  | n + 2 => 'w' :: ' ' :: wRep (n + 1)

/-- A single subtitle event whose text holds 501 words. -/
def evBig : Event := { start := 0, end_ := 1, text := String.mk (wRep 501), type := "speech" }

/-- C6 counterexample: a subset with 501 total words across events — here
one event carrying all 501 words — produces exactly one batch, and that
batch exceeds 500 words; the claim's "at least 2 batches, each of at most
500 words" fails. -/
theorem claim_C6_counterexample :
    wordCount evBig = 501 ∧
    totalWords [evBig] = 501 ∧
    create_smart_batches [evBig] = [[evBig]] ∧
    ¬ 2 ≤ (create_smart_batches [evBig]).length ∧
    ¬ batchWords [evBig] ≤ 500 := by
  set_option maxRecDepth 10000 in
  exact ⟨by decide, by decide, by decide, by decide, by decide⟩

/-- A subtitle event whose text holds 500 words. -/
def evW500 : Event := { start := 0, end_ := 1, text := String.mk (wRep 500), type := "speech" }

/-- A one-word subtitle event. -/
def evW1 : Event := { start := 2, end_ := 3, text := "w", type := "speech" }

theorem claim_C6_witness :
    (create_smart_batches [evW500, evW1]).flatten = [evW500, evW1] ∧
    2 ≤ (create_smart_batches [evW500, evW1]).length :=
  ⟨claim_C6_amended.1 [evW500, evW1],
   claim_C6_amended.2.2 [evW500, evW1]
     (by set_option maxRecDepth 10000 in decide)
     (by set_option maxRecDepth 10000 in decide)⟩

/-- The batches always concatenate back to the input. -/
theorem create_smart_batches_flatten (subtitles : List Event) :
    (create_smart_batches subtitles).flatten = subtitles := by
  rw [create_smart_batches, csbAux_flatten]
  simp

/-- Decimal digit character. -/
def digitChar : Nat → Char
  | 0 => '0' | 1 => '1' | 2 => '2' | 3 => '3' | 4 => '4'
  | 5 => '5' | 6 => '6' | 7 => '7' | 8 => '8' | _ => '9'

/-- Decimal digits of `n`, most significant first; `fuel > n` suffices for
full unfolding. -/
def natCharsAux : Nat → Nat → List Char
  | 0, _ => []
  | fuel + 1, n =>
    if n < 10 then [digitChar n]
    else natCharsAux fuel (n / 10) ++ [digitChar (n % 10)]

/-- Python `str(n)` / `f"{n}"` for a natural number. -/
def natChars (n : Nat) : List Char := natCharsAux (n + 1) n

/-- The list comprehension of `parse_translation_response`:
split on newlines, strip each line, keep the truthy (non-empty) ones. -/
def pyLines (s : String) : List (List Char) :=
  ((splitOnChar '\n' s.data).map stripChars).filter (fun l => l ≠ [])

/-- `f"{i + 1}."`, the numeric prefix expected for entry `i`. -/
def numPre (i : Nat) : List Char := natChars (i + 1) ++ ['.']

/-- `parse_translation_response` from the source: for each entry of the
batch, find the first response line starting with its numeric prefix and
strip the remainder; when that is missing or empty, fall back to the
original text; `{**original_sub, "text": final_text}` copies every other
field unchanged. -/
def parse_translation_response (translated_text : String) (original_batch : List Event) :
    List Event :=
  let translated_lines := pyLines translated_text
  original_batch.enum.map (fun p =>
    let translated_line :=
      (translated_lines.find? (fun l => (numPre p.1).isPrefixOf l)).map
        (fun l => stripChars (l.drop (numPre p.1).length))
    { p.2 with text :=
        match translated_line with
        | some t => if t ≠ [] then String.mk t else p.2.text
        | none => p.2.text })

/-- Outcome trace of `make_translation_request`: the returned value, how
many attempts ran, and the backoff sleeps (in seconds) performed between
attempts. -/
structure ReqTrace where
  result : Option String
  attempts : Nat
  sleeps : List Nat
deriving DecidableEq

/-- The retry loop of `make_translation_request`.  The network call of
attempt `k` is abstracted by `oracle k`: `some s` is a successful
response with content `s` (then `.strip()` is returned), `none` an
exception.  `fuel` counts the remaining iterations of
`for attempt in range(max_retries)`; on the last attempt the exception
handler returns `None` without sleeping. -/
def mtrGo (oracle : Nat → Option String) (max_retries : Nat) : Nat → Nat → ReqTrace
  | 0, attempt => { result := none, attempts := attempt, sleeps := [] }
  | fuel + 1, attempt =>
    match oracle attempt with
    | some response =>
      { result := some (pyStrip response), attempts := attempt + 1, sleeps := [] }
    | none =>
      if attempt < max_retries - 1 then
        let t := mtrGo oracle max_retries fuel (attempt + 1)
        { result := t.result, attempts := t.attempts, sleeps := 2 ^ attempt :: t.sleeps }
      else { result := none, attempts := attempt + 1, sleeps := [] }

/-- `make_translation_request` from the source (called with its default
`max_retries = 3` throughout the pipeline). -/
def make_translation_request (oracle : Nat → Option String) (max_retries : Nat) : ReqTrace :=
  mtrGo oracle max_retries max_retries 0

/-- The per-batch body of `translate_texts_in_batches`: `if response:`
(a `None` or empty response is falsy) parses the translation, anything
else — including the per-batch `except` path — extends the output with
the unmodified batch. -/
def processBatch (oracle : Nat → Option String) (batch : List Event) : List Event :=
  match (make_translation_request oracle 3).result with
  | some response =>
    if response ≠ "" then parse_translation_response response batch else batch
  | none => batch

/-- `translate_texts_in_batches` from the source, over the per-batch
oracles (`oracles i k` = outcome of attempt `k` of batch `i`'s request):
batches are processed in order and the per-batch results concatenated. -/
def translate_texts_in_batches (subtitles : List Event)
    (oracles : Nat → Nat → Option String) : List Event :=
  if subtitles = [] then []
  else
    ((create_smart_batches subtitles).enum.map
      (fun p => processBatch (oracles p.1) p.2)).flatten

theorem mtrGo_attempts (oracle : Nat → Option String) (m : Nat) :
    ∀ (fuel attempt : Nat), (mtrGo oracle m fuel attempt).attempts ≤ attempt + fuel
  | 0, attempt => by
    rw [mtrGo]
    dsimp only
    omega
  | fuel + 1, attempt => by
    rw [mtrGo]
    cases oracle attempt with
    | some r => simp
    | none =>
      by_cases h : attempt < m - 1
      · rw [if_pos h]
        have := mtrGo_attempts oracle m fuel (attempt + 1)
        dsimp only
        omega
      · rw [if_neg h]
        simp

theorem mtr_all_fail (oracle : Nat → Option String) (h : ∀ k, k < 3 → oracle k = none) :
    make_translation_request oracle 3 =
      { result := none, attempts := 3, sleeps := [2 ^ 0, 2 ^ 1] } := by
  have h0 := h 0 (by omega)
  have h1 := h 1 (by omega)
  have h2 := h 2 (by omega)
  rw [make_translation_request]
  rw [mtrGo, h0, if_pos (by omega : 0 < 3 - 1)]
  rw [mtrGo, h1, if_pos (by omega : 1 < 3 - 1)]
  rw [mtrGo, h2, if_neg (by omega : ¬ 2 < 3 - 1)]

theorem processBatch_all_fail (batch : List Event) (oracle : Nat → Option String)
    (h : ∀ k, k < 3 → oracle k = none) : processBatch oracle batch = batch := by
  rw [processBatch, mtr_all_fail oracle h]

theorem translate_all_fail (subtitles : List Event) (oracles : Nat → Nat → Option String)
    (h : ∀ i k, oracles i k = none) :
    translate_texts_in_batches subtitles oracles = subtitles := by
  rw [translate_texts_in_batches]
  by_cases hs : subtitles = []
  · rw [if_pos hs, hs]
  · rw [if_neg hs]
    have hmap : ((create_smart_batches subtitles).enum.map
        (fun p => processBatch (oracles p.1) p.2)) =
        (create_smart_batches subtitles).enum.map (fun p => p.2) :=
      List.map_congr_left (fun p _ =>
        processBatch_all_fail p.2 (oracles p.1) (fun k _ => h p.1 k))
    rw [hmap, List.enum_map_snd, create_smart_batches_flatten]

/-- C7: the translation request makes at most 3 attempts; when all 3
fail, it returns `None` after sleeping `2^0` then `2^1` seconds between
attempts; a batch whose attempts all fail is passed through unmodified;
and when every request fails, `translate_texts_in_batches` returns the
whole input unchanged (the pipeline is never aborted: the function is
total and falls back per batch). -/
theorem claim_C7 :
    (∀ oracle : Nat → Option String, (make_translation_request oracle 3).attempts ≤ 3) ∧
    (∀ oracle : Nat → Option String, (∀ k, k < 3 → oracle k = none) →
      make_translation_request oracle 3 =
        { result := none, attempts := 3, sleeps := [2 ^ 0, 2 ^ 1] }) ∧
    (∀ (batch : List Event) (oracle : Nat → Option String),
      (∀ k, k < 3 → oracle k = none) → processBatch oracle batch = batch) ∧
    (∀ (subtitles : List Event) (oracles : Nat → Nat → Option String),
      (∀ i k, oracles i k = none) →
      translate_texts_in_batches subtitles oracles = subtitles) :=
  ⟨fun oracle => mtrGo_attempts oracle 3 3 0,
   fun oracle h => mtr_all_fail oracle h,
   fun batch oracle h => processBatch_all_fail batch oracle h,
   fun subs oracles h => translate_all_fail subs oracles h⟩

theorem claim_C7_witness :
    make_translation_request (fun _ => none) 3 =
      { result := none, attempts := 3, sleeps := [2 ^ 0, 2 ^ 1] } ∧
    processBatch (fun _ => none) [sdEx1] = [sdEx1] ∧
    translate_texts_in_batches [sdEx1] (fun _ _ => none) = [sdEx1] :=
  ⟨claim_C7.2.1 (fun _ => none) (fun _ _ => rfl),
   claim_C7.2.2.1 [sdEx1] (fun _ => none) (fun _ _ => rfl),
   claim_C7.2.2.2 [sdEx1] (fun _ _ => none) (fun _ _ => rfl)⟩

/-- C10: `parse_translation_response` returns one event per input event,
in order; each output event agrees with its input event on `start`,
`end`, `type`, `confidence`, `source` and `priority`, and its text is
either the original text or the stripped remainder of the first response
line carrying the matching numeric prefix. -/
theorem claim_C10 (translated_text : String) (original_batch : List Event) :
    (parse_translation_response translated_text original_batch).length =
      original_batch.length ∧
    ∀ (i : Nat) (h1 : i < (parse_translation_response translated_text original_batch).length)
      (h2 : i < original_batch.length),
      ((parse_translation_response translated_text original_batch).get ⟨i, h1⟩).start =
          (original_batch.get ⟨i, h2⟩).start ∧
        ((parse_translation_response translated_text original_batch).get ⟨i, h1⟩).end_ =
          (original_batch.get ⟨i, h2⟩).end_ ∧
        ((parse_translation_response translated_text original_batch).get ⟨i, h1⟩).type =
          (original_batch.get ⟨i, h2⟩).type ∧
        ((parse_translation_response translated_text original_batch).get ⟨i, h1⟩).confidence =
          (original_batch.get ⟨i, h2⟩).confidence ∧
        ((parse_translation_response translated_text original_batch).get ⟨i, h1⟩).source =
          (original_batch.get ⟨i, h2⟩).source ∧
        ((parse_translation_response translated_text original_batch).get ⟨i, h1⟩).priority =
          (original_batch.get ⟨i, h2⟩).priority ∧
        (((parse_translation_response translated_text original_batch).get ⟨i, h1⟩).text =
            (original_batch.get ⟨i, h2⟩).text ∨
          ∃ l ∈ pyLines translated_text, (numPre i).isPrefixOf l = true ∧
            ((parse_translation_response translated_text original_batch).get ⟨i, h1⟩).text =
              String.mk (stripChars (l.drop (numPre i).length))) := by
  constructor
  · simp [parse_translation_response]
  · intro i h1 h2
    simp only [parse_translation_response, List.get_eq_getElem, List.getElem_map,
      List.getElem_enum]
    refine ⟨trivial, trivial, trivial, trivial, trivial, trivial, ?_⟩
    cases hf : (pyLines translated_text).find? (fun l => (numPre i).isPrefixOf l) with
    | none =>
      left
      rfl
    | some l =>
      by_cases hne : stripChars (l.drop (numPre i).length) ≠ []
      · right
        refine ⟨l, List.mem_of_find?_eq_some hf, List.find?_some hf, ?_⟩
        simp only [Option.map_some']
        rw [if_pos hne]
      · left
        simp only [Option.map_some']
        rw [if_neg hne]

theorem claim_C10_witness :
    (parse_translation_response "1. Hola" [evW1]).length = ([evW1] : List Event).length ∧
    ((parse_translation_response "1. Hola" [evW1]).get ⟨0, by decide⟩).priority =
      (([evW1] : List Event).get ⟨0, by decide⟩).priority := by
  constructor
  · exact (claim_C10 "1. Hola" [evW1]).1
  · exact ((claim_C10 "1. Hola" [evW1]).2 0 (by decide) (by decide)).2.2.2.2.2.1

/-- `int(c) - ord('0')`. -/
def charVal (c : Char) : Nat := c.toNat - 48

/-- Decimal value of a digit string (the reading side of the export→parse
round trip). -/
def parseDigits (cs : List Char) : Nat :=
  cs.foldl (fun a c => a * 10 + charVal c) 0

/-- Left-pad with `'0'` to width `k` (the `f"{n:02d}"` / `f"{n:03d}"`
format specifiers). -/
def padL (k : Nat) (cs : List Char) : List Char :=
  List.replicate (k - cs.length) '0' ++ cs

/-- `format_srt_time` from the source: the divmod chain
`s,ms = divmod(ms,1000); m,s = divmod(s,60); h,m = divmod(m,60)` printed
as `HH:MM:SS,mmm` (strings modelled as char lists). -/
def format_srt_time (ms : Nat) : List Char :=
  padL 2 (natChars (ms / 1000 / 60 / 60)) ++ ':' ::
    (padL 2 (natChars (ms / 1000 / 60 % 60)) ++ ':' ::
      (padL 2 (natChars (ms / 1000 % 60)) ++ ',' :: padL 3 (natChars (ms % 1000))))

/-- `format_vtt_time` from the source: `HH:MM:SS.mmm`. -/
def format_vtt_time (ms : Nat) : List Char :=
  padL 2 (natChars (ms / 1000 / 60 / 60)) ++ ':' ::
    (padL 2 (natChars (ms / 1000 / 60 % 60)) ++ ':' ::
      (padL 2 (natChars (ms / 1000 % 60)) ++ '.' :: padL 3 (natChars (ms % 1000))))

/-- `format_ass_time` from the source: `H:MM:SS.cc` with `cs = ms // 10`
centiseconds and an unpadded hour. -/
def format_ass_time (ms : Nat) : List Char :=
  natChars (ms / 1000 / 60 / 60) ++ ':' ::
    (padL 2 (natChars (ms / 1000 / 60 % 60)) ++ ':' ::
      (padL 2 (natChars (ms / 1000 % 60)) ++ '.' :: padL 2 (natChars (ms % 1000 / 10))))

/-- `format_txt_time` from the source: `HH:MM:SS`. -/
def format_txt_time (ms : Nat) : List Char :=
  padL 2 (natChars (ms / 1000 / 60 / 60)) ++ ':' ::
    (padL 2 (natChars (ms / 1000 / 60 % 60)) ++ ':' :: padL 2 (natChars (ms / 1000 % 60)))

/-- Modelled from the spec: the repository ships no subtitle reader, so
the inverse of the exporter is taken from the spec's timestamp grammar
table (`HH:MM:SS,mmm` for SRT); the parsed value is in milliseconds. -/
def parse_srt_time (cs : List Char) : Option Nat :=
  match splitOnChar ':' cs with
  | [hh, mm, rest] =>
    match splitOnChar ',' rest with
    | [ss, mmm] =>
      some (((parseDigits hh * 60 + parseDigits mm) * 60 + parseDigits ss) * 1000 +
        parseDigits mmm)
    | _ => none
  | _ => none

/-- Modelled from the spec: inverse of the `HH:MM:SS.mmm` VTT timestamp
grammar; the parsed value is in milliseconds. -/
def parse_vtt_time (cs : List Char) : Option Nat :=
  match splitOnChar ':' cs with
  | [hh, mm, rest] =>
    match splitOnChar '.' rest with
    | [ss, mmm] =>
      some (((parseDigits hh * 60 + parseDigits mm) * 60 + parseDigits ss) * 1000 +
        parseDigits mmm)
    | _ => none
  | _ => none

/-- Modelled from the spec: inverse of the `H:MM:SS.cc` ASS timestamp
grammar; the parsed value is in centiseconds, the format's resolution. -/
def parse_ass_time (cs : List Char) : Option Nat :=
  match splitOnChar ':' cs with
  | [hh, mm, rest] =>
    match splitOnChar '.' rest with
    | [ss, cc] =>
      some (((parseDigits hh * 60 + parseDigits mm) * 60 + parseDigits ss) * 100 +
        parseDigits cc)
    | _ => none
  | _ => none

/-- Modelled from the spec: inverse of the `HH:MM:SS` TXT timestamp
grammar; the parsed value is in seconds, the format's resolution. -/
def parse_txt_time (cs : List Char) : Option Nat :=
  match splitOnChar ':' cs with
  | [hh, mm, ss] =>
    some ((parseDigits hh * 60 + parseDigits mm) * 60 + parseDigits ss)
  | _ => none

theorem digitChar_digit : ∀ m : Nat, 48 ≤ (digitChar m).toNat ∧ (digitChar m).toNat ≤ 57
  | 0 => by decide
  | 1 => by decide
  | 2 => by decide
  | 3 => by decide
  | 4 => by decide
  | 5 => by decide
  | 6 => by decide
  | 7 => by decide
  | 8 => by decide
  | _ + 9 => by
    show 48 ≤ ('9' : Char).toNat ∧ ('9' : Char).toNat ≤ 57
    decide

theorem charVal_digitChar : ∀ m : Nat, m < 10 → charVal (digitChar m) = m := by decide

theorem natCharsAux_digits : ∀ (fuel n : Nat), ∀ c ∈ natCharsAux fuel n,
    48 ≤ c.toNat ∧ c.toNat ≤ 57
  | 0, n, c, hc => absurd hc (List.not_mem_nil c)
  | fuel + 1, n, c, hc => by
    rw [natCharsAux] at hc
    by_cases h : n < 10
    · rw [if_pos h] at hc
      rw [List.mem_singleton.mp hc]
      exact digitChar_digit n
    · rw [if_neg h] at hc
      rcases List.mem_append.mp hc with h1 | h1
      · exact natCharsAux_digits fuel (n / 10) c h1
      · rw [List.mem_singleton.mp h1]
        exact digitChar_digit (n % 10)

/-- All characters of a chunk are decimal digits. -/
def DigitStr (cs : List Char) : Prop := ∀ c ∈ cs, 48 ≤ c.toNat ∧ c.toNat ≤ 57

theorem DigitStr.not_mem {cs : List Char} (h : DigitStr cs) {c0 : Char}
    (hc : ¬(48 ≤ c0.toNat ∧ c0.toNat ≤ 57)) : c0 ∉ cs :=
  fun hm => hc (h c0 hm)

theorem digitStr_natChars (n : Nat) : DigitStr (natChars n) :=
  fun c hc => natCharsAux_digits (n + 1) n c hc

theorem DigitStr.padL {cs : List Char} (h : DigitStr cs) (k : Nat) :
    DigitStr (padL k cs) := by
  intro c hc
  rcases List.mem_append.mp hc with h1 | h1
  · rw [List.eq_of_mem_replicate h1]
    decide
  · exact h c h1

theorem parseDigits_append_single (l : List Char) (c : Char) :
    parseDigits (l ++ [c]) = parseDigits l * 10 + charVal c := by
  simp [parseDigits, List.foldl_append]

theorem parseDigits_padL (k : Nat) (cs : List Char) :
    parseDigits (padL k cs) = parseDigits cs := by
  unfold padL parseDigits
  generalize k - cs.length = m
  induction m with
  | zero => rfl
  | succ m ih =>
    rw [List.replicate_succ, List.cons_append, List.foldl_cons]
    have h0 : (0 * 10 + charVal '0') = 0 := by decide
    rw [h0]
    exact ih

theorem parseDigits_natCharsAux : ∀ (fuel n : Nat), n < fuel →
    parseDigits (natCharsAux fuel n) = n
  | 0, n, h => absurd h (Nat.not_lt_zero n)
  | fuel + 1, n, h => by
    rw [natCharsAux]
    by_cases h10 : n < 10
    · rw [if_pos h10]
      have hv := charVal_digitChar n h10
      simp [parseDigits, hv]
    · rw [if_neg h10]
      rw [parseDigits_append_single]
      have hrec : parseDigits (natCharsAux fuel (n / 10)) = n / 10 :=
        parseDigits_natCharsAux fuel (n / 10) (by omega)
      have hdig : charVal (digitChar (n % 10)) = n % 10 := charVal_digitChar _ (by omega)
      rw [hrec, hdig]
      omega

theorem parseDigits_natChars (n : Nat) : parseDigits (natChars n) = n :=
  parseDigits_natCharsAux (n + 1) n (Nat.lt_succ_self n)

theorem splitOnChar_not_mem {c : Char} : ∀ {a : List Char}, c ∉ a →
    splitOnChar c a = [a]
  | [], _ => rfl
  | x :: xs, h => by
    have hx : ¬ x = c := fun hxc => h (by rw [← hxc]; exact List.mem_cons_self x xs)
    rw [splitOnChar, if_neg hx,
      splitOnChar_not_mem (fun hm => h (List.mem_cons_of_mem x hm))]

theorem splitOnChar_append {c : Char} : ∀ {a : List Char} (b : List Char), c ∉ a →
    splitOnChar c (a ++ c :: b) = a :: splitOnChar c b
  | [], b, _ => by
    rw [List.nil_append, splitOnChar, if_pos rfl]
  | x :: xs, b, h => by
    have hx : ¬ x = c := fun hxc => h (by rw [← hxc]; exact List.mem_cons_self x xs)
    rw [List.cons_append, splitOnChar, if_neg hx,
      splitOnChar_append b (fun hm => h (List.mem_cons_of_mem x hm))]

theorem breakAt_append {c : Char} : ∀ {a : List Char} (b : List Char), c ∉ a →
    breakAt c (a ++ c :: b) = some (a, b)
  | [], b, _ => by
    rw [List.nil_append, breakAt, if_pos rfl]
  | x :: xs, b, h => by
    have hx : ¬ x = c := fun hxc => h (by rw [← hxc]; exact List.mem_cons_self x xs)
    rw [List.cons_append, breakAt, if_neg hx,
      breakAt_append b (fun hm => h (List.mem_cons_of_mem x hm))]
    rfl

theorem colon_not_digit : ¬(48 ≤ (':' : Char).toNat ∧ (':' : Char).toNat ≤ 57) := by decide

theorem comma_not_digit : ¬(48 ≤ (',' : Char).toNat ∧ (',' : Char).toNat ≤ 57) := by decide

theorem dot_not_digit : ¬(48 ≤ ('.' : Char).toNat ∧ ('.' : Char).toNat ≤ 57) := by decide

theorem space_not_digit : ¬(48 ≤ (' ' : Char).toNat ∧ (' ' : Char).toNat ≤ 57) := by decide

theorem nl_not_digit : ¬(48 ≤ ('\n' : Char).toNat ∧ ('\n' : Char).toNat ≤ 57) := by decide

theorem rbracket_not_digit : ¬(48 ≤ (']' : Char).toNat ∧ (']' : Char).toNat ≤ 57) := by decide

/-- SRT timestamps round-trip exactly. -/
theorem srt_time_roundtrip (ms : Nat) :
    parse_srt_time (format_srt_time ms) = some ms := by
  have d1 := (digitStr_natChars (ms / 1000 / 60 / 60)).padL 2
  have d2 := (digitStr_natChars (ms / 1000 / 60 % 60)).padL 2
  have d3 := (digitStr_natChars (ms / 1000 % 60)).padL 2
  have d4 := (digitStr_natChars (ms % 1000)).padL 3
  have hc3 : (':' : Char) ∉ padL 2 (natChars (ms / 1000 % 60)) ++ ',' ::
      padL 3 (natChars (ms % 1000)) := by
    intro hm
    rcases List.mem_append.mp hm with h1 | h1
    · exact (d3.not_mem colon_not_digit) h1
    · rcases List.mem_cons.mp h1 with h2 | h2
      · exact absurd h2 (by decide)
      · exact (d4.not_mem colon_not_digit) h2
  unfold format_srt_time parse_srt_time
  rw [splitOnChar_append _ (d1.not_mem colon_not_digit),
    splitOnChar_append _ (d2.not_mem colon_not_digit),
    splitOnChar_not_mem hc3]
  dsimp only
  rw [splitOnChar_append _ (d3.not_mem comma_not_digit),
    splitOnChar_not_mem (d4.not_mem comma_not_digit)]
  dsimp only
  rw [parseDigits_padL, parseDigits_padL, parseDigits_padL, parseDigits_padL,
    parseDigits_natChars, parseDigits_natChars, parseDigits_natChars, parseDigits_natChars]
  have harith : ((ms / 1000 / 60 / 60 * 60 + ms / 1000 / 60 % 60) * 60 + ms / 1000 % 60) *
      1000 + ms % 1000 = ms := by omega
  rw [harith]

/-- VTT timestamps round-trip exactly. -/
theorem vtt_time_roundtrip (ms : Nat) :
    parse_vtt_time (format_vtt_time ms) = some ms := by
  have d1 := (digitStr_natChars (ms / 1000 / 60 / 60)).padL 2
  have d2 := (digitStr_natChars (ms / 1000 / 60 % 60)).padL 2
  have d3 := (digitStr_natChars (ms / 1000 % 60)).padL 2
  have d4 := (digitStr_natChars (ms % 1000)).padL 3
  have hc3 : (':' : Char) ∉ padL 2 (natChars (ms / 1000 % 60)) ++ '.' ::
      padL 3 (natChars (ms % 1000)) := by
    intro hm
    rcases List.mem_append.mp hm with h1 | h1
    · exact (d3.not_mem colon_not_digit) h1
    · rcases List.mem_cons.mp h1 with h2 | h2
      · exact absurd h2 (by decide)
      · exact (d4.not_mem colon_not_digit) h2
  unfold format_vtt_time parse_vtt_time
  rw [splitOnChar_append _ (d1.not_mem colon_not_digit),
    splitOnChar_append _ (d2.not_mem colon_not_digit),
    splitOnChar_not_mem hc3]
  dsimp only
  rw [splitOnChar_append _ (d3.not_mem dot_not_digit),
    splitOnChar_not_mem (d4.not_mem dot_not_digit)]
  dsimp only
  rw [parseDigits_padL, parseDigits_padL, parseDigits_padL, parseDigits_padL,
    parseDigits_natChars, parseDigits_natChars, parseDigits_natChars, parseDigits_natChars]
  have harith : ((ms / 1000 / 60 / 60 * 60 + ms / 1000 / 60 % 60) * 60 + ms / 1000 % 60) *
      1000 + ms % 1000 = ms := by omega
  rw [harith]

/-- ASS timestamps round-trip to the centisecond: parsing the exported
`H:MM:SS.cc` recovers `ms / 10`. -/
theorem ass_time_roundtrip (ms : Nat) :
    parse_ass_time (format_ass_time ms) = some (ms / 10) := by
  have d1 := digitStr_natChars (ms / 1000 / 60 / 60)
  have d2 := (digitStr_natChars (ms / 1000 / 60 % 60)).padL 2
  have d3 := (digitStr_natChars (ms / 1000 % 60)).padL 2
  have d4 := (digitStr_natChars (ms % 1000 / 10)).padL 2
  have hc3 : (':' : Char) ∉ padL 2 (natChars (ms / 1000 % 60)) ++ '.' ::
      padL 2 (natChars (ms % 1000 / 10)) := by
    intro hm
    rcases List.mem_append.mp hm with h1 | h1
    · exact (d3.not_mem colon_not_digit) h1
    · rcases List.mem_cons.mp h1 with h2 | h2
      · exact absurd h2 (by decide)
      · exact (d4.not_mem colon_not_digit) h2
  unfold format_ass_time parse_ass_time
  rw [splitOnChar_append _ (d1.not_mem colon_not_digit),
    splitOnChar_append _ (d2.not_mem colon_not_digit),
    splitOnChar_not_mem hc3]
  dsimp only
  rw [splitOnChar_append _ (d3.not_mem dot_not_digit),
    splitOnChar_not_mem (d4.not_mem dot_not_digit)]
  dsimp only
  rw [parseDigits_padL, parseDigits_padL, parseDigits_padL,
    parseDigits_natChars, parseDigits_natChars, parseDigits_natChars, parseDigits_natChars]
  have harith : ((ms / 1000 / 60 / 60 * 60 + ms / 1000 / 60 % 60) * 60 + ms / 1000 % 60) *
      100 + ms % 1000 / 10 = ms / 10 := by omega
  rw [harith]

/-- TXT timestamps round-trip to the second: parsing the exported
`HH:MM:SS` recovers `ms / 1000`. -/
theorem txt_time_roundtrip (ms : Nat) :
    parse_txt_time (format_txt_time ms) = some (ms / 1000) := by
  have d1 := (digitStr_natChars (ms / 1000 / 60 / 60)).padL 2
  have d2 := (digitStr_natChars (ms / 1000 / 60 % 60)).padL 2
  have d3 := (digitStr_natChars (ms / 1000 % 60)).padL 2
  unfold format_txt_time parse_txt_time
  rw [splitOnChar_append _ (d1.not_mem colon_not_digit),
    splitOnChar_append _ (d2.not_mem colon_not_digit),
    splitOnChar_not_mem (d3.not_mem colon_not_digit)]
  dsimp only
  rw [parseDigits_padL, parseDigits_padL, parseDigits_padL,
    parseDigits_natChars, parseDigits_natChars, parseDigits_natChars]
  have harith : (ms / 1000 / 60 / 60 * 60 + ms / 1000 / 60 % 60) * 60 + ms / 1000 % 60 =
      ms / 1000 := by omega
  rw [harith]

/-- The time line of an SRT block: `f"{start_time} --> {end_time}"`. -/
def srt_timeline (startMs endMs : Nat) : List Char :=
  format_srt_time startMs ++ ' ' :: '-' :: '-' :: '>' :: ' ' :: format_srt_time endMs

/-- The time line of a VTT block. -/
def vtt_timeline (startMs endMs : Nat) : List Char :=
  format_vtt_time startMs ++ ' ' :: '-' :: '-' :: '>' :: ' ' :: format_vtt_time endMs

/-- One block written by `write_srt` for the subtitle at index `i`:
`f"{i+1}\n"` then `f"{start_time} --> {end_time}\n"` then
`f"{sub['text']}\n\n"`.  The event's `start`/`end` are nonnegative per
the data-model invariant and are taken as naturals. -/
def write_srt_block (i startMs endMs : Nat) (text : List Char) : List Char :=
  natChars (i + 1) ++ '\n' ::
    (srt_timeline startMs endMs ++ '\n' :: (text ++ '\n' :: '\n' :: []))

/-- One block written by `write_vtt` (after the `WEBVTT` header). -/
def write_vtt_block (i startMs endMs : Nat) (text : List Char) : List Char :=
  natChars (i + 1) ++ '\n' ::
    (vtt_timeline startMs endMs ++ '\n' :: (text ++ '\n' :: '\n' :: []))

/-- One `Dialogue` line written by `write_ass`:
`f"Dialogue: 0,{start},{end},Default,,0,0,0,,{text}\n"`. -/
def write_ass_line (startMs endMs : Nat) (text : List Char) : List Char :=
  "Dialogue: 0,".data ++ (format_ass_time startMs ++ ',' ::
    (format_ass_time endMs ++ ',' :: ("Default,,0,0,0,,".data ++ (text ++ ['\n']))))

/-- One line written by `write_txt`: `f"[{start_time}] {sub['text']}\n"`. -/
def write_txt_line (startMs : Nat) (text : List Char) : List Char :=
  '[' :: (format_txt_time startMs ++ ']' :: ' ' :: (text ++ ['\n']))

/-- Modelled from the spec: reader for one SRT block of the spec's block
layout (index line, `start --> end` line, text line, blank line). -/
def parse_srt_block (cs : List Char) : Option (Nat × Nat × List Char) :=
  match splitOnChar '\n' cs with
  | [_idx, timeline, text, [], []] =>
    match breakAt ' ' timeline with
    | some (t1, rest) =>
      match breakAt ' ' rest with
      | some (arrow, t2) =>
        if arrow = ['-', '-', '>'] then
          match parse_srt_time t1, parse_srt_time t2 with
          | some a, some b => some (a, b, text)
          | _, _ => none
        else none
      | none => none
    | none => none
  | _ => none

/-- Modelled from the spec: reader for one VTT block. -/
def parse_vtt_block (cs : List Char) : Option (Nat × Nat × List Char) :=
  match splitOnChar '\n' cs with
  | [_idx, timeline, text, [], []] =>
    match breakAt ' ' timeline with
    | some (t1, rest) =>
      match breakAt ' ' rest with
      | some (arrow, t2) =>
        if arrow = ['-', '-', '>'] then
          match parse_vtt_time t1, parse_vtt_time t2 with
          | some a, some b => some (a, b, text)
          | _, _ => none
        else none
      | none => none
    | none => none
  | _ => none

/-- Modelled from the spec: reader for one ASS `Dialogue` line of the
spec's fixed layout `Dialogue: 0,start,end,Default,,0,0,0,,text`. -/
def parse_ass_line (cs : List Char) : Option (Nat × Nat × List Char) :=
  if "Dialogue: 0,".data.isPrefixOf cs then
    match breakAt ',' (cs.drop 12) with
    | some (t1, cs2) =>
      match breakAt ',' cs2 with
      | some (t2, cs3) =>
        if "Default,,0,0,0,,".data.isPrefixOf cs3 then
          match breakAt '\n' (cs3.drop 16) with
          | some (text, []) =>
            match parse_ass_time t1, parse_ass_time t2 with
            | some a, some b => some (a, b, text)
            | _, _ => none
          | _ => none
        else none
      | none => none
    | none => none
  else none

/-- Modelled from the spec: reader for one TXT line `[HH:MM:SS] text`. -/
def parse_txt_line (cs : List Char) : Option (Nat × List Char) :=
  match cs with
  | c :: rest =>
    if c = '[' then
      match breakAt ']' rest with
      | some (t, body0) =>
        match body0 with
        | c2 :: body =>
          if c2 = ' ' then
            match breakAt '\n' body with
            | some (text, []) => (parse_txt_time t).map (fun v => (v, text))
            | _ => none
          else none
        | [] => none
      | none => none
    else none
  | [] => none

theorem format_srt_time_not_mem {c : Char} (ms : Nat)
    (hd : ¬(48 ≤ c.toNat ∧ c.toNat ≤ 57)) (h1 : c ≠ ':') (h2 : c ≠ ',') :
    c ∉ format_srt_time ms := by
  intro hm
  unfold format_srt_time at hm
  rcases List.mem_append.mp hm with h | h
  · exact ((digitStr_natChars _).padL 2).not_mem hd h
  rcases List.mem_cons.mp h with h | h
  · exact h1 h
  rcases List.mem_append.mp h with h | h
  · exact ((digitStr_natChars _).padL 2).not_mem hd h
  rcases List.mem_cons.mp h with h | h
  · exact h1 h
  rcases List.mem_append.mp h with h | h
  · exact ((digitStr_natChars _).padL 2).not_mem hd h
  rcases List.mem_cons.mp h with h | h
  · exact h2 h
  · exact ((digitStr_natChars _).padL 3).not_mem hd h

theorem format_vtt_time_not_mem {c : Char} (ms : Nat)
    (hd : ¬(48 ≤ c.toNat ∧ c.toNat ≤ 57)) (h1 : c ≠ ':') (h2 : c ≠ '.') :
    c ∉ format_vtt_time ms := by
  intro hm
  unfold format_vtt_time at hm
  rcases List.mem_append.mp hm with h | h
  · exact ((digitStr_natChars _).padL 2).not_mem hd h
  rcases List.mem_cons.mp h with h | h
  · exact h1 h
  rcases List.mem_append.mp h with h | h
  · exact ((digitStr_natChars _).padL 2).not_mem hd h
  rcases List.mem_cons.mp h with h | h
  · exact h1 h
  rcases List.mem_append.mp h with h | h
  · exact ((digitStr_natChars _).padL 2).not_mem hd h
  rcases List.mem_cons.mp h with h | h
  · exact h2 h
  · exact ((digitStr_natChars _).padL 3).not_mem hd h

theorem format_ass_time_not_mem {c : Char} (ms : Nat)
    (hd : ¬(48 ≤ c.toNat ∧ c.toNat ≤ 57)) (h1 : c ≠ ':') (h2 : c ≠ '.') :
    c ∉ format_ass_time ms := by
  intro hm
  unfold format_ass_time at hm
  rcases List.mem_append.mp hm with h | h
  · exact (digitStr_natChars _).not_mem hd h
  rcases List.mem_cons.mp h with h | h
  · exact h1 h
  rcases List.mem_append.mp h with h | h
  · exact ((digitStr_natChars _).padL 2).not_mem hd h
  rcases List.mem_cons.mp h with h | h
  · exact h1 h
  rcases List.mem_append.mp h with h | h
  · exact ((digitStr_natChars _).padL 2).not_mem hd h
  rcases List.mem_cons.mp h with h | h
  · exact h2 h
  · exact ((digitStr_natChars _).padL 2).not_mem hd h

theorem format_txt_time_not_mem {c : Char} (ms : Nat)
    (hd : ¬(48 ≤ c.toNat ∧ c.toNat ≤ 57)) (h1 : c ≠ ':') :
    c ∉ format_txt_time ms := by
  intro hm
  unfold format_txt_time at hm
  rcases List.mem_append.mp hm with h | h
  · exact ((digitStr_natChars _).padL 2).not_mem hd h
  rcases List.mem_cons.mp h with h | h
  · exact h1 h
  rcases List.mem_append.mp h with h | h
  · exact ((digitStr_natChars _).padL 2).not_mem hd h
  rcases List.mem_cons.mp h with h | h
  · exact h1 h
  · exact ((digitStr_natChars _).padL 2).not_mem hd h

theorem isPrefixOf_append (a b : List Char) : a.isPrefixOf (a ++ b) = true := by
  induction a with
  | nil => simp
  | cons x xs ih => simp [List.cons_append, List.isPrefixOf_cons₂, ih]

theorem srt_block_roundtrip (i startMs endMs : Nat) (text : List Char)
    (htext : '\n' ∉ text) :
    parse_srt_block (write_srt_block i startMs endMs text) =
      some (startMs, endMs, text) := by
  have hidx : ('\n' : Char) ∉ natChars (i + 1) := (digitStr_natChars _).not_mem nl_not_digit
  have htl : ('\n' : Char) ∉ srt_timeline startMs endMs := by
    intro hm
    unfold srt_timeline at hm
    rcases List.mem_append.mp hm with h | h
    · exact format_srt_time_not_mem startMs nl_not_digit (by decide) (by decide) h
    rcases List.mem_cons.mp h with h | h
    · exact absurd h (by decide)
    rcases List.mem_cons.mp h with h | h
    · exact absurd h (by decide)
    rcases List.mem_cons.mp h with h | h
    · exact absurd h (by decide)
    rcases List.mem_cons.mp h with h | h
    · exact absurd h (by decide)
    rcases List.mem_cons.mp h with h | h
    · exact absurd h (by decide)
    · exact format_srt_time_not_mem endMs nl_not_digit (by decide) (by decide) h
  have hsp : (' ' : Char) ∉ format_srt_time startMs :=
    format_srt_time_not_mem startMs space_not_digit (by decide) (by decide)
  unfold write_srt_block parse_srt_block
  rw [splitOnChar_append _ hidx, splitOnChar_append _ htl, splitOnChar_append _ htext,
    show splitOnChar '\n' ('\n' :: []) = [[], []] from rfl]
  dsimp only
  unfold srt_timeline
  rw [breakAt_append _ hsp]
  dsimp only
  rw [show ('-' :: '-' :: '>' :: ' ' :: format_srt_time endMs : List Char) =
    ['-', '-', '>'] ++ ' ' :: format_srt_time endMs from rfl]
  rw [breakAt_append _ (by decide : (' ' : Char) ∉ ['-', '-', '>'])]
  dsimp only
  rw [if_pos rfl]
  rw [srt_time_roundtrip, srt_time_roundtrip]

theorem vtt_block_roundtrip (i startMs endMs : Nat) (text : List Char)
    (htext : '\n' ∉ text) :
    parse_vtt_block (write_vtt_block i startMs endMs text) =
      some (startMs, endMs, text) := by
  have hidx : ('\n' : Char) ∉ natChars (i + 1) := (digitStr_natChars _).not_mem nl_not_digit
  have htl : ('\n' : Char) ∉ vtt_timeline startMs endMs := by
    intro hm
    unfold vtt_timeline at hm
    rcases List.mem_append.mp hm with h | h
    · exact format_vtt_time_not_mem startMs nl_not_digit (by decide) (by decide) h
    rcases List.mem_cons.mp h with h | h
    · exact absurd h (by decide)
    rcases List.mem_cons.mp h with h | h
    · exact absurd h (by decide)
    rcases List.mem_cons.mp h with h | h
    · exact absurd h (by decide)
    rcases List.mem_cons.mp h with h | h
    · exact absurd h (by decide)
    rcases List.mem_cons.mp h with h | h
    · exact absurd h (by decide)
    · exact format_vtt_time_not_mem endMs nl_not_digit (by decide) (by decide) h
  have hsp : (' ' : Char) ∉ format_vtt_time startMs :=
    format_vtt_time_not_mem startMs space_not_digit (by decide) (by decide)
  unfold write_vtt_block parse_vtt_block
  rw [splitOnChar_append _ hidx, splitOnChar_append _ htl, splitOnChar_append _ htext,
    show splitOnChar '\n' ('\n' :: []) = [[], []] from rfl]
  dsimp only
  unfold vtt_timeline
  rw [breakAt_append _ hsp]
  dsimp only
  rw [show ('-' :: '-' :: '>' :: ' ' :: format_vtt_time endMs : List Char) =
    ['-', '-', '>'] ++ ' ' :: format_vtt_time endMs from rfl]
  rw [breakAt_append _ (by decide : (' ' : Char) ∉ ['-', '-', '>'])]
  dsimp only
  rw [if_pos rfl]
  rw [vtt_time_roundtrip, vtt_time_roundtrip]

theorem ass_line_roundtrip (startMs endMs : Nat) (text : List Char)
    (htext : '\n' ∉ text) :
    parse_ass_line (write_ass_line startMs endMs text) =
      some (startMs / 10, endMs / 10, text) := by
  have hc1 : (',' : Char) ∉ format_ass_time startMs :=
    format_ass_time_not_mem startMs comma_not_digit (by decide) (by decide)
  have hc2 : (',' : Char) ∉ format_ass_time endMs :=
    format_ass_time_not_mem endMs comma_not_digit (by decide) (by decide)
  unfold write_ass_line parse_ass_line
  rw [if_pos (isPrefixOf_append _ _),
    show (12 : Nat) = ("Dialogue: 0,".data).length from rfl, List.drop_left]
  rw [breakAt_append _ hc1]
  dsimp only
  rw [breakAt_append _ hc2]
  dsimp only
  rw [if_pos (isPrefixOf_append _ _),
    show (16 : Nat) = ("Default,,0,0,0,,".data).length from rfl, List.drop_left]
  rw [show text ++ ['\n'] = text ++ '\n' :: [] from rfl, breakAt_append _ htext]
  dsimp only
  rw [ass_time_roundtrip, ass_time_roundtrip]

theorem txt_line_roundtrip (startMs : Nat) (text : List Char)
    (htext : '\n' ∉ text) :
    parse_txt_line (write_txt_line startMs text) = some (startMs / 1000, text) := by
  have hb : (']' : Char) ∉ format_txt_time startMs :=
    format_txt_time_not_mem startMs rbracket_not_digit (by decide)
  unfold write_txt_line parse_txt_line
  dsimp only
  rw [if_pos rfl]
  rw [show (format_txt_time startMs ++ ']' :: ' ' :: (text ++ ['\n']) : List Char) =
    format_txt_time startMs ++ ']' :: (' ' :: (text ++ ['\n'])) from rfl]
  rw [breakAt_append _ hb]
  dsimp only
  rw [if_pos rfl]
  rw [show text ++ ['\n'] = text ++ '\n' :: [] from rfl, breakAt_append _ htext]
  dsimp only
  rw [txt_time_roundtrip]
  rfl

/-- C8: the export→parse round trip recovers timestamps within each
format's resolution — exactly (milliseconds) for SRT and VTT, to the
centisecond (`ms / 10`) for ASS, to the second (`ms / 1000`) for TXT —
and a block's exported text (any newline-free text) is recovered
unchanged, for all four block layouts.  The parsers are modelled from
the spec's grammar table; the writers are the source's
`format_*_time` / `write_*` functions. -/
theorem claim_C8 :
    (∀ ms : Nat, parse_srt_time (format_srt_time ms) = some ms) ∧
    (∀ ms : Nat, parse_vtt_time (format_vtt_time ms) = some ms) ∧
    (∀ ms : Nat, parse_ass_time (format_ass_time ms) = some (ms / 10)) ∧
    (∀ ms : Nat, parse_txt_time (format_txt_time ms) = some (ms / 1000)) ∧
    (∀ (i startMs endMs : Nat) (text : List Char), '\n' ∉ text →
      parse_srt_block (write_srt_block i startMs endMs text) =
        some (startMs, endMs, text)) ∧
    (∀ (i startMs endMs : Nat) (text : List Char), '\n' ∉ text →
      parse_vtt_block (write_vtt_block i startMs endMs text) =
        some (startMs, endMs, text)) ∧
    (∀ (startMs endMs : Nat) (text : List Char), '\n' ∉ text →
      parse_ass_line (write_ass_line startMs endMs text) =
        some (startMs / 10, endMs / 10, text)) ∧
    (∀ (startMs : Nat) (text : List Char), '\n' ∉ text →
      parse_txt_line (write_txt_line startMs text) = some (startMs / 1000, text)) :=
  ⟨srt_time_roundtrip, vtt_time_roundtrip, ass_time_roundtrip, txt_time_roundtrip,
   srt_block_roundtrip, vtt_block_roundtrip, ass_line_roundtrip, txt_line_roundtrip⟩

theorem claim_C8_witness :
    parse_srt_block (write_srt_block 0 61234 62345 "Hi".data) =
      some (61234, 62345, "Hi".data) ∧
    parse_vtt_block (write_vtt_block 0 61234 62345 "Hi".data) =
      some (61234, 62345, "Hi".data) ∧
    parse_ass_line (write_ass_line 61234 62345 "Hi".data) =
      some (6123, 6234, "Hi".data) ∧
    parse_txt_line (write_txt_line 61234 "Hi".data) = some (61, "Hi".data) :=
  ⟨claim_C8.2.2.2.2.1 0 61234 62345 "Hi".data (by decide),
   claim_C8.2.2.2.2.2.1 0 61234 62345 "Hi".data (by decide),
   claim_C8.2.2.2.2.2.2.1 61234 62345 "Hi".data (by decide),
   claim_C8.2.2.2.2.2.2.2 61234 "Hi".data (by decide)⟩
